import Mathlib

/-!
Verification of the MX-function core (`mx_function_internal.cpp`) of the
CasADi repository: graph-to-tape initialization, forward/adjoint tape
evaluation with the lifting hook, and the symbolic forward-mode
differentiator (`jac` / `adFwd`).

The embedding follows the source translation unit.  External collaborators
(the sparsity capability, the dense container, the base-class wrapper, the
depth-first sorter `sort_depth_first`, and the per-node evaluation /
differentiation rules dispatched through `MXNode`) are not part of that
translation unit; where a claim depends on them they are modelled from the
specification, as marked in the corresponding doc comments.
-/

namespace CasadiMX

/-! ## Generic list helpers (index update, first-occurrence position) -/

/-- Update the element at position `k` with `f`; no-op out of range. -/
def updAt (k : Nat) (f : α → α) : List α → List α
  | [] => []
  | x :: xs =>
    match k with
    | 0 => f x :: xs
    | k' + 1 => x :: updAt k' f xs

/-- Position of the first occurrence of `x` (list length when absent). -/
def posOf (x : Nat) : List Nat → Nat
  | [] => 0
  | y :: ys => if y = x then 0 else posOf x ys + 1

/-- Replace the first `k` entries of `olds` by the entries of `news`
(keeping `olds` where either list runs out). -/
def setFirst : Nat → List α → List α → List α
  | _, _, [] => []
  | 0, _, olds => olds
  | _ + 1, [], olds => olds
  | k + 1, n :: ns, _ :: os => n :: setFirst k ns os

/-- Concatenation of `f` over a list (a self-contained `flatMap`). -/
def catMaps (f : α → List β) : List α → List β
  | [] => []
  | a :: as => f a ++ catMaps f as

/-! ## Data model

`MXNodeData` is one DAG vertex (operation classification flags, sparsity
shape, ordered dependency references).  Nodes live in an arena addressed by
creation index; a dependency reference is `none` for a null `MX` handle.
Per the spec (§3) every dependency of a node is constructed strictly before
the node, so references of a well-formed arena point strictly downward. -/

structure Sp where
  nrow : Nat
  ncol : Nat
  nnz : Nat
deriving DecidableEq, Repr, Inhabited

structure MXNodeData where
  deps : List (Option Nat)
  nrow : Nat
  ncol : Nat
  nnz : Nat
  symbolic : Bool
  constant : Bool
  nonlinear : Bool
deriving DecidableEq, Repr, Inhabited

/-- `numel()` of the node: dense element count `size1()*size2()`. -/
def MXNodeData.numel (nd : MXNodeData) : Nat := nd.nrow * nd.ncol

structure Arena where
  nodes : List MXNodeData
deriving DecidableEq, Repr, Inhabited

/-- Node lookup by creation index. -/
def Arena.node (ar : Arena) (i : Nat) : MXNodeData := ar.nodes.getD i default

/-- Sparsity of an expression handle, as consumed through the external
sparsity capability.  Modelled from the spec: the sparsity pattern type is an
opaque external capability (spec §1, §6); its behaviour on a null handle is
outside the examined translation unit, totalized here with the empty shape. -/
def sparsityD (ar : Arena) (mx : Option Nat) : Sp :=
  match mx with
  | none => default
  | some i => ⟨(ar.node i).nrow, (ar.node i).ncol, (ar.node i).nnz⟩

/-- A numeric buffer (one tape-slot value vector). -/
abbrev Buf := List Int

/-- The per-direction value store of one tape entry (`FunctionIO val`):
primal data, `nfdir_` tangent buffers, `nadir_` sensitivity buffers. -/
structure SlotVal where
  data : Buf
  dataF : List Buf
  dataA : List Buf
deriving DecidableEq, Repr, Inhabited

/-- One tape entry (`AlgEl`): the node it evaluates and the resolved
dependency slot indices (`-1` for an absent dependency).  The non-owning
pointer views of the C++ struct are realized by slot-indexed access through
`ch` during evaluation. -/
structure AlgEl where
  node : Nat
  ch : List Int
  val : SlotVal
deriving DecidableEq, Repr, Inhabited

/-- The function object (`MXFunctionInternal` together with the base-class
state it uses): root expressions, external I/O port shapes, port-to-slot
maps, the tape, the lifting hook registration, the initialization flag and
the configured direction counts. -/
structure MXFunctionInternal where
  inputv : List (Option Nat)
  outputv : List (Option Nat)
  input_ : List Sp
  output_ : List Sp
  inputv_ind : List Nat
  outputv_ind : List Nat
  alg : List AlgEl
  liftfun_ : Bool
  liftfun_ud_ : Nat
  initialized : Bool
  nfdir_ : Nat
  nadir_ : Nat
deriving DecidableEq, Repr, Inhabited

/-! ## Construction (`MXFunctionInternal::MXFunctionInternal`) -/

inductive CtorKind where
  | nullArg
  | nonSymbolic
deriving DecidableEq, Repr

structure CtorErr where
  idx : Nat
  kind : CtorKind
deriving DecidableEq, Repr

/-- The constructor's validation loop over the declared inputs, starting at
argument index `i`: a null argument raises, then a non-symbolic argument
raises, naming the offending index. -/
def checkInputsFrom (ar : Arena) : Nat → List (Option Nat) → Option CtorErr
  | _, [] => none
  | i, none :: _ => some ⟨i, .nullArg⟩
  | i, some nid :: rest =>
    if (ar.node nid).symbolic then checkInputsFrom ar (i + 1) rest
    else some ⟨i, .nonSymbolic⟩

/-- An input handle violating the constructor's requirements. -/
def badInputB (ar : Arena) (mx : Option Nat) : Bool :=
  match mx with
  | none => true
  | some nid => !(ar.node nid).symbolic

/-- `MXFunctionInternal::MXFunctionInternal(inputv_, outputv_)`: validates
every declared input (null check before the symbolic check, first offender
reported), then allocates one external I/O port per declared input and
output sized to that expression's sparsity.  The direction counts are the
base-class configuration in effect. -/
def mkMXFunction (ar : Arena) (inputv outputv : List (Option Nat))
    (nfdir0 nadir0 : Nat) : Except CtorErr MXFunctionInternal :=
  match checkInputsFrom ar 0 inputv with
  | some e => .error e
  | none => .ok
      { inputv := inputv
        outputv := outputv
        input_ := inputv.map (sparsityD ar)
        output_ := outputv.map (sparsityD ar)
        inputv_ind := []
        outputv_ind := []
        alg := []
        liftfun_ := false
        liftfun_ud_ := 0
        initialized := false
        nfdir_ := nfdir0
        nadir_ := nadir0 }

/-! ## Initialization (`MXFunctionInternal::init`)

The depth-first sorter `sort_depth_first` is declared in a header outside
this translation unit.  `sortedForB` is modelled from the spec (§4.2): the
sorter's output lists each reachable node exactly once, contains every
(non-null) root, and appends a node only once all its dependencies are
already appended. -/

/-- Modelled from the spec: postcondition of the missing `sort_depth_first`
pass — every dependency of a listed node is listed strictly earlier. -/
def depsBeforeB (ar : Arena) : List Nat → List Nat → Bool
  | _, [] => true
  | seen, n :: rest =>
    ((ar.node n).deps.all fun d =>
      match d with
      | none => true
      | some did => seen.contains did) &&
    depsBeforeB ar (seen ++ [n]) rest

/-- Modelled from the spec: the full postcondition of `sort_depth_first` —
no duplicates, all non-null roots present, dependencies before dependents. -/
def sortedForB (ar : Arena) (inputv outputv : List (Option Nat)) (nodes : List Nat) : Bool :=
  decide nodes.Nodup &&
  ((inputv ++ outputv).all fun mx =>
    match mx with
    | none => true
    | some nid => nodes.contains nid) &&
  depsBeforeB ar [] nodes

/-- The transient `temp` marking of `init`: the node's position in the
sorted list (nodes outside the list keep the neutral reset value `0`). -/
def tempOf (nodes : List Nat) (n : Nat) : Nat :=
  if n ∈ nodes then posOf n nodes else 0

/-- Resolution of one dependency reference to its tape slot index:
`-1` for a null reference, otherwise the dependency's `temp` marking. -/
def chOfDep (nodes : List Nat) (d : Option Nat) : Int :=
  match d with
  | none => (-1 : Int)
  | some did => (tempOf nodes did : Int)

/-- The tape entry built by `init` for one sorted node: zero-initialized
primal/tangent/sensitivity buffers sized to the node's element count, and
dependency slot indices resolved through `temp`. -/
def algElOf (ar : Arena) (inst : MXFunctionInternal) (nodes : List Nat) (nid : Nat) : AlgEl :=
  { node := nid
    ch := (ar.node nid).deps.map (chOfDep nodes)
    val :=
      { data := List.replicate (ar.node nid).nnz 0
        dataF := List.replicate inst.nfdir_ (List.replicate (ar.node nid).nnz 0)
        dataA := List.replicate inst.nadir_ (List.replicate (ar.node nid).nnz 0) } }

/-- `MXFunctionInternal::init()`: given the sorted node list, record the
input/output port slot maps and build one tape entry per sorted node. -/
def mxInit (ar : Arena) (inst : MXFunctionInternal) (nodes : List Nat) :
    MXFunctionInternal :=
  { inst with
    initialized := true
    inputv_ind := inst.inputv.map fun mx => tempOf nodes (mx.getD 0)
    outputv_ind := inst.outputv.map fun mx => tempOf nodes (mx.getD 0)
    alg := nodes.map (algElOf ar inst nodes) }

/-! ## Evaluation (`MXFunctionInternal::evaluate`)

The per-node numeric rules (`MXNode::evaluate` overrides) are virtual
dispatch outside this translation unit; the engine is parametric in a
`NodeEvalFn`.  A rule sees exactly what the C++ rule can reach through the
pre-resolved pointer views (dependency primal/tangent/sensitivity buffers,
its own buffers, the requested direction counts) and returns the values it
writes back; the engine applies tangent writes for the first `nfdir`
directions and dependency-sensitivity writes for the first `nadir`
directions, encoding the direction-count convention of the call
`mx->evaluate(..., nfdir, 0)` / `mx->evaluate(..., 0, nadir)`. -/

/-- Dependency primal-buffer view (`it->input[i]`; null pointer for `ch=-1`). -/
def depViewData (alg : List AlgEl) (c : Int) : Option Buf :=
  if 0 ≤ c then some ((alg.getD c.toNat default).val.data) else none

/-- Dependency tangent-buffer views (`it->fwdSeed[i]`). -/
def depViewF (alg : List AlgEl) (c : Int) : Option (List Buf) :=
  if 0 ≤ c then some ((alg.getD c.toNat default).val.dataF) else none

/-- Dependency sensitivity-buffer views (`it->adjSens[i]`). -/
def depViewA (alg : List AlgEl) (c : Int) : Option (List Buf) :=
  if 0 ≤ c then some ((alg.getD c.toNat default).val.dataA) else none

/-- What one node rule can observe at its call. -/
structure NodeCtx where
  nodeId : Nat
  input : List (Option Buf)
  fwdSeedC : List (Option (List Buf))
  adjSeedC : List Buf
  adjSensC : List (Option (List Buf))
  output0 : Buf
  nfdir : Nat
  nadir : Nat

/-- What one node rule writes back: its primal output, its tangent outputs,
and the updated sensitivity buffers of each dependency (accumulation is the
rule's business; the engine stores what the rule returns). -/
structure NodeOut where
  output : Buf
  fwdSens : List Buf
  adjSensNew : List (List Buf)

/-- A per-node evaluation rule (the virtual `MXNode::evaluate`). -/
def NodeEvalFn := NodeCtx → NodeOut

def mkCtx (alg : List AlgEl) (k nfdir nadir : Nat) : NodeCtx :=
  let el := alg.getD k default
  { nodeId := el.node
    input := el.ch.map (depViewData alg)
    fwdSeedC := el.ch.map (depViewF alg)
    adjSeedC := el.val.dataA
    adjSensC := el.ch.map (depViewA alg)
    output0 := el.val.data
    nfdir := nfdir
    nadir := nadir }

/-- Write back the dependency sensitivity buffers returned by a rule
(only slots with a resolved dependency, only the first `nadir` directions). -/
def applyDepAdj (nadir : Nat) : List AlgEl → List (Int × List Buf) → List AlgEl
  | alg, [] => alg
  | alg, (c, bufs) :: rest =>
    applyDepAdj nadir
      (if 0 ≤ c then
        updAt c.toNat
          (fun el => { el with val := { el.val with dataA := setFirst nadir bufs el.val.dataA } }) alg
      else alg) rest

/-- One tape-entry evaluation
(`it->mx->evaluate(input, output, fwdSeed, fwdSens, adjSeed, adjSens, nfdir, nadir)`). -/
def stepNode (f : NodeEvalFn) (nfdir nadir : Nat) (alg : List AlgEl) (k : Nat) : List AlgEl :=
  let el := alg.getD k default
  let out := f (mkCtx alg k nfdir nadir)
  let alg1 := updAt k
    (fun e => { e with val := { e.val with
        data := out.output
        dataF := setFirst nfdir out.fwdSens e.val.dataF } }) alg
  applyDepAdj nadir alg1 (el.ch.zip out.adjSensNew)

/-- Observable engine events, in execution order. -/
inductive Ev where
  | setInput (ind : Nat)
  | setFwdSeed (dir ind : Nat)
  | execFwd (k : Nat)
  | liftCall (k : Nat) (buf : Buf) (nnz ud : Nat)
  | getOutput (ind : Nat)
  | getFwdSens (dir ind : Nat)
  | clearAdj (k dir : Nat)
  | setAdjSeed (ind dir : Nat)
  | execAdj (k : Nat)
  | getAdjSens (ind dir : Nat)
deriving DecidableEq, Repr

/-- Left fold that also emits each iteration's events, in order. -/
def foldTr (step : σ → α → σ) (ev : σ → α → List Ev) : σ → List α → σ × List Ev
  | s, [] => (s, [])
  | s, a :: as =>
    let p := foldTr step ev (step s a) as
    (p.1, ev s a ++ p.2)

/-- External caller-visible port values (`input(i)`, `fwdSeed(i,d)`,
`adjSeed(i,d)` read; `output(i)`, `fwdSens(i,d)`, `adjSens(i,d)` written). -/
structure ExtVals where
  input : List Buf
  fwdSeedV : List (List Buf)
  adjSeedV : List (List Buf)
  output : List Buf
  fwdSensV : List (List Buf)
  adjSensV : List (List Buf)
deriving DecidableEq, Repr, Inhabited

def setSlotData (k : Nat) (v : Buf) (alg : List AlgEl) : List AlgEl :=
  updAt k (fun el => { el with val := { el.val with data := v } }) alg

def setSlotDataF (k dir : Nat) (v : Buf) (alg : List AlgEl) : List AlgEl :=
  updAt k (fun el => { el with val := { el.val with
    dataF := updAt dir (fun _ => v) el.val.dataF } }) alg

def setSlotDataA (k dir : Nat) (v : Buf) (alg : List AlgEl) : List AlgEl :=
  updAt k (fun el => { el with val := { el.val with
    dataA := updAt dir (fun _ => v) el.val.dataA } }) alg

/-- Zero out the first `k` buffers (`fill(dataA.at(dir).begin(), ..., 0.0)`
for the requested directions; lengths are preserved). -/
def zeroDirs : Nat → List Buf → List Buf
  | 0, l => l
  | _ + 1, [] => []
  | k + 1, b :: bs => List.replicate b.length 0 :: zeroDirs k bs

/-- Pass the inputs: `alg[inputv_ind[ind]].val.data.set(input(ind))`. -/
def passInputs (inst : MXFunctionInternal) (ext : ExtVals) (alg : List AlgEl) :
    List AlgEl × List Ev :=
  foldTr (fun a ind => setSlotData (inst.inputv_ind.getD ind 0) (ext.input.getD ind []) a)
    (fun _ ind => [Ev.setInput ind]) alg (List.range inst.input_.length)

/-- Pass the forward seeds (direction-major loop order, as in the source). -/
def passFwdSeeds (inst : MXFunctionInternal) (ext : ExtVals) (nfdir : Nat)
    (alg : List AlgEl) : List AlgEl × List Ev :=
  foldTr
    (fun a p => setSlotDataF (inst.inputv_ind.getD p.2 0) p.1
      ((ext.fwdSeedV.getD p.2 []).getD p.1 []) a)
    (fun _ p => [Ev.setFwdSeed p.1 p.2]) alg
    (catMaps (fun d => (List.range inst.input_.length).map fun i => (d, i)) (List.range nfdir))

/-- The forward sweep: evaluate each entry in the given order, invoking the
lifting callback (when registered) right after every nonlinear entry, with
that entry's output buffer, its element count and the registered user data. -/
def fwdSweepGo (f : NodeEvalFn) (ar : Arena) (lifted : Bool) (ud nfdir : Nat) :
    List AlgEl → List Nat → List AlgEl × List Ev
  | alg, [] => (alg, [])
  | alg, k :: ks =>
    let alg2 := stepNode f nfdir 0 alg k
    let nd := ar.node ((alg.getD k default).node)
    let p := fwdSweepGo f ar lifted ud nfdir alg2 ks
    (p.1, (Ev.execFwd k ::
      (if lifted && nd.nonlinear
       then [Ev.liftCall k ((alg2.getD k default).val.data) nd.nnz ud]
       else [])) ++ p.2)

/-- Get the outputs: `alg[outputv_ind[ind]].val.data.get(output(ind))`. -/
def getOutputsPh (inst : MXFunctionInternal) (alg : List AlgEl) (ext : ExtVals) :
    ExtVals × List Ev :=
  ({ ext with output := (List.range inst.outputv.length).map fun ind =>
      (alg.getD (inst.outputv_ind.getD ind 0) default).val.data },
   (List.range inst.outputv.length).map Ev.getOutput)

/-- One port's collected tangent buffers (first `nfdir` directions). -/
def collectDirsF (alg : List AlgEl) (nfdir slot : Nat) (old : List Buf) : List Buf :=
  setFirst nfdir
    ((List.range nfdir).map fun d => (alg.getD slot default).val.dataF.getD d []) old

/-- One port's collected sensitivity buffers (first `nadir` directions). -/
def collectDirsA (alg : List AlgEl) (nadir slot : Nat) (old : List Buf) : List Buf :=
  setFirst nadir
    ((List.range nadir).map fun d => (alg.getD slot default).val.dataA.getD d []) old

/-- Get the forward sensitivities (direction-major loop order). -/
def getFwdSensPh (inst : MXFunctionInternal) (alg : List AlgEl) (nfdir : Nat)
    (ext : ExtVals) : ExtVals × List Ev :=
  ({ ext with fwdSensV := (List.range inst.outputv.length).map fun ind =>
      collectDirsF alg nfdir (inst.outputv_ind.getD ind 0) (ext.fwdSensV.getD ind []) },
   catMaps (fun d => (List.range inst.outputv.length).map fun i => Ev.getFwdSens d i)
     (List.range nfdir))

/-- Clear the adjoint seeds: zero every entry's sensitivity buffer for every
requested direction. -/
def clearAdjPhase (nadir : Nat) (alg : List AlgEl) : List AlgEl × List Ev :=
  foldTr
    (fun a k => updAt k
      (fun el => { el with val := { el.val with dataA := zeroDirs nadir el.val.dataA } }) a)
    (fun _ k => (List.range nadir).map (Ev.clearAdj k)) alg (List.range alg.length)

/-- Pass the adjoint seeds (output-port-major loop order, as in the source). -/
def passAdjSeeds (inst : MXFunctionInternal) (ext : ExtVals) (nadir : Nat)
    (alg : List AlgEl) : List AlgEl × List Ev :=
  foldTr
    (fun a p => setSlotDataA (inst.outputv_ind.getD p.1 0) p.2
      ((ext.adjSeedV.getD p.1 []).getD p.2 []) a)
    (fun _ p => [Ev.setAdjSeed p.1 p.2]) alg
    (catMaps (fun i => (List.range nadir).map fun d => (i, d))
      (List.range inst.outputv.length))

/-- The adjoint sweep over a given entry order. -/
def adjSweepGo (f : NodeEvalFn) (nadir : Nat) (alg : List AlgEl) (ks : List Nat) :
    List AlgEl × List Ev :=
  foldTr (fun a k => stepNode f 0 nadir a k) (fun _ k => [Ev.execAdj k]) alg ks

/-- Get the adjoint sensitivities into caller-visible storage. -/
def getAdjSensPh (inst : MXFunctionInternal) (alg : List AlgEl) (nadir : Nat)
    (ext : ExtVals) : ExtVals × List Ev :=
  ({ ext with adjSensV := (List.range inst.input_.length).map fun ind =>
      collectDirsA alg nadir (inst.inputv_ind.getD ind 0) (ext.adjSensV.getD ind []) },
   catMaps (fun i => (List.range nadir).map fun d => Ev.getAdjSens i d)
     (List.range inst.input_.length))

/-- The forward part of `evaluate` (source lines up to the `nadir>0` test):
pass inputs, pass forward seeds, execute entries in ascending order with the
lifting hook, collect outputs and forward sensitivities. -/
def forwardPass (f : NodeEvalFn) (ar : Arena) (inst : MXFunctionInternal)
    (ext : ExtVals) (nfdir : Nat) : List AlgEl × ExtVals × List Ev :=
  let p1 := passInputs inst ext inst.alg
  let p2 := passFwdSeeds inst ext nfdir p1.1
  let p3 := fwdSweepGo f ar inst.liftfun_ inst.liftfun_ud_ nfdir p2.1
    (List.range inst.alg.length)
  let p4 := getOutputsPh inst p3.1 ext
  let p5 := getFwdSensPh inst p3.1 nfdir p4.1
  (p3.1, p5.1, p1.2 ++ p2.2 ++ p3.2 ++ p4.2 ++ p5.2)

/-- The adjoint part of `evaluate` (the `if (nadir>0)` block): clear all
sensitivity buffers, pass the adjoint seeds, execute entries in descending
order, collect the adjoint sensitivities. -/
def adjointPass (f : NodeEvalFn) (inst : MXFunctionInternal) (alg : List AlgEl)
    (ext : ExtVals) (nadir : Nat) : List AlgEl × ExtVals × List Ev :=
  let p1 := clearAdjPhase nadir alg
  let p2 := passAdjSeeds inst ext nadir p1.1
  let p3 := adjSweepGo f nadir p2.1 ((List.range alg.length).reverse)
  let p4 := getAdjSensPh inst p3.1 nadir ext
  (p3.1, p4.1, p1.2 ++ p2.2 ++ p3.2 ++ p4.2)

structure EvalRes where
  alg : List AlgEl
  ext : ExtVals
  fwdTrace : List Ev
  adjTrace : List Ev

/-- `MXFunctionInternal::evaluate(nfdir, nadir)`: the forward pass, followed
by the adjoint pass exactly when `nadir > 0`. -/
def evaluate (f : NodeEvalFn) (ar : Arena) (inst : MXFunctionInternal)
    (ext : ExtVals) (nfdir nadir : Nat) : EvalRes :=
  let p := forwardPass f ar inst ext nfdir
  if 0 < nadir then
    let q := adjointPass f inst p.1 p.2.1 nadir
    { alg := q.1, ext := q.2.1, fwdTrace := p.2.2, adjTrace := q.2.2 }
  else
    { alg := p.1, ext := p.2.1, fwdTrace := p.2.2, adjTrace := [] }

inductive PreErr where
  | notInitialized
deriving DecidableEq, Repr

/-- Modelled from the spec: the fatal precondition assertion guarding
`evaluate` on an uninitialized instance lives in the public base-class
wrapper, which is outside the examined translation unit; per spec §4.4/§6/§7
the call is rejected before any tape execution when the tape has not been
built. -/
def evaluateChecked (f : NodeEvalFn) (ar : Arena) (inst : MXFunctionInternal)
    (ext : ExtVals) (nfdir nadir : Nat) : Except PreErr EvalRes :=
  if inst.initialized then .ok (evaluate f ar inst ext nfdir nadir)
  else .error .notInitialized

/-- The projection selecting the lifting-callback invocations of a trace. -/
def liftIdx : Ev → Option Nat
  | Ev.liftCall k _ _ _ => some k
  | _ => none

def pick (f : α → Option β) : List α → List β
  | [] => []
  | a :: as =>
    match f a with
    | some b => b :: pick f as
    | none => pick f as

/-! ## Symbolic forward differentiation (`jac` / `adFwd`)

Derivative expressions are `MX` values built through the external
constructors `MX::eye` / `MX::zeros` or returned by the per-node
differentiation rules (`MXNode::adFwd`, virtual dispatch outside this
translation unit, taken as a parameter `MXRule`).  A default-constructed
`MX` is null.  Undefined behaviour of the source (reading `fseed.front()`
of an empty vector, dereferencing a null seed, indexing `fseed[ind]` out of
range) is mapped to designated error values. -/

inductive MXv where
  | null
  | eye (n : Nat)
  | zeros (nrow ncol : Nat)
  | expr (nrow ncol : Nat) (tag : Nat)
deriving DecidableEq, Repr, Inhabited

def MXv.isNull : MXv → Bool
  | .null => true
  | _ => false

/-- `size1()`: row count (0 only as a placeholder on null, never consulted). -/
def MXv.size1 : MXv → Nat
  | .null => 0
  | .eye n => n
  | .zeros r _ => r
  | .expr r _ _ => r

/-- `size2()`: column count. -/
def MXv.size2 : MXv → Nat
  | .null => 0
  | .eye n => n
  | .zeros _ c => c
  | .expr _ c _ => c

inductive AdErr where
  | notInit
  | ubEmptyFront
  | ubNullSeed
  | ubSeedIndex
  | inconsistent
  | emptyDeps
deriving DecidableEq, Repr

/-- A per-node symbolic differentiation rule (the virtual `MXNode::adFwd`). -/
def MXRule := Nat → List MXv → MXv

/-- The consistency loop of `adFwd`: every seed's column count must equal
the first seed's (`casadi_assert_message`); dereferencing a null seed is
undefined behaviour. -/
def ncolCheck (ncol : Nat) : List MXv → Except AdErr Unit
  | [] => .ok ()
  | s :: rest =>
    if s.isNull then .error .ubNullSeed
    else if s.size2 ≠ ncol then .error .inconsistent
    else ncolCheck ncol rest

/-- The seeding loop of `adFwd`: `derwork[inputv_ind[ind]] = fseed[ind]`
for every declared input; `fseed[ind]` out of range is undefined behaviour. -/
def seedGo (inst : MXFunctionInternal) (fseed : List MXv) :
    List Nat → List MXv → Except AdErr (List MXv)
  | [], dw => .ok dw
  | ind :: rest, dw =>
    match fseed.get? ind with
    | none => .error .ubSeedIndex
    | some s => seedGo inst fseed rest (updAt (inst.inputv_ind.getD ind 0) (fun _ => s) dw)

/-- The seeded memo in total form (equal to the run of `seedGo` whenever a
seed is supplied for every declared input). -/
def seedFold (inst : MXFunctionInternal) (fseed : List MXv) : List MXv :=
  (List.range inst.input_.length).foldl
    (fun dw ind => updAt (inst.inputv_ind.getD ind 0) (fun _ => fseed.getD ind MXv.null) dw)
    (List.replicate inst.alg.length MXv.null)

/-- The tape walk of `adFwd` in ascending slot order: skip already-memoized
slots; memoize `MX::zeros(numel, ncol)` for structural constants; otherwise
assert at least one dependency (`casadi_assert(!seed.empty())`), gather the
dependencies' memoized derivatives (null for an absent dependency) and
memoize the node rule's result. -/
def adWalk (ar : Arena) (inst : MXFunctionInternal) (rule : MXRule) (ncol : Nat) :
    List Nat → List MXv → Except AdErr (List MXv)
  | [], dw => .ok dw
  | el :: rest, dw =>
    if (dw.getD el MXv.null).isNull = false then adWalk ar inst rule ncol rest dw
    else
      if (ar.node ((inst.alg.getD el default).node)).constant then
        adWalk ar inst rule ncol rest
          (updAt el (fun _ => MXv.zeros ((ar.node ((inst.alg.getD el default).node)).numel) ncol) dw)
      else
        if ((inst.alg.getD el default).ch).isEmpty then .error .emptyDeps
        else
          adWalk ar inst rule ncol rest
            (updAt el (fun _ => rule (inst.alg.getD el default).node
              (((inst.alg.getD el default).ch).map fun c =>
                if 0 ≤ c then dw.getD c.toNat MXv.null else MXv.null)) dw)

/-- `MXFunctionInternal::adFwd(fseed)`, returning the final memo together
with the collected per-output derivative expressions. -/
def adFwdFull (ar : Arena) (inst : MXFunctionInternal) (rule : MXRule)
    (fseed : List MXv) : Except AdErr (List MXv × List MXv) :=
  if inst.initialized = false then .error .notInit
  else
    match fseed with
    | [] => .error .ubEmptyFront
    | s0 :: _ =>
      if s0.isNull then .error .ubNullSeed
      else
        match ncolCheck s0.size2 fseed with
        | .error e => .error e
        | .ok _ =>
          match seedGo inst fseed (List.range inst.input_.length)
              (List.replicate inst.alg.length MXv.null) with
          | .error e => .error e
          | .ok dw1 =>
            match adWalk ar inst rule s0.size2 (List.range inst.alg.length) dw1 with
            | .error e => .error e
            | .ok dw2 => .ok (dw2, (List.range inst.outputv.length).map fun ind =>
                dw2.getD (inst.outputv_ind.getD ind 0) MXv.null)

/-- `adFwd` as the caller sees it: the per-output derivative expressions. -/
def adFwd (ar : Arena) (inst : MXFunctionInternal) (rule : MXRule)
    (fseed : List MXv) : Except AdErr (List MXv) :=
  (adFwdFull ar inst rule fseed).map Prod.snd

/-- The node of the `j`-th declared input expression. -/
def inputNode (ar : Arena) (inst : MXFunctionInternal) (j : Nat) : MXNodeData :=
  ar.node ((inst.inputv.getD j none).getD 0)

/-- The seed list `jac(iind)` is specified to build: an identity seed for
the targeted input (order = that input's row count) and zero seeds with the
matching row count for every other input. -/
def jacSeeds (ar : Arena) (inst : MXFunctionInternal) (iind : Nat) : List MXv :=
  (List.range inst.input_.length).map fun ind =>
    if ind = iind then MXv.eye ((inputNode ar inst iind).nrow)
    else MXv.zeros ((inputNode ar inst ind).nrow) ((inputNode ar inst iind).nrow)

/-- `MXFunctionInternal::jac(iind)`: build one seed per declared input —
`MX::eye(ncol)` for the targeted input, `MX::zeros(nrow, ncol)` otherwise,
where `ncol` is the targeted input's tape node's row count — and delegate
to `adFwd`. -/
def jac (ar : Arena) (inst : MXFunctionInternal) (rule : MXRule) (iind : Nat) :
    Except AdErr (List MXv) :=
  if inst.initialized = false then .error .notInit
  else
    adFwd ar inst rule ((List.range inst.input_.length).map fun ind =>
      if ind = iind then
        MXv.eye ((ar.node ((inst.alg.getD (inst.inputv_ind.getD iind 0) default).node)).nrow)
      else
        MXv.zeros
          ((ar.node ((inst.alg.getD (inst.inputv_ind.getD ind 0) default).node)).nrow)
          ((ar.node ((inst.alg.getD (inst.inputv_ind.getD iind 0) default).node)).nrow))

/-- Decidable check that each declared input's tape slot (through
`inputv_ind`) holds exactly that input's node — a property `init`
establishes. -/
def inputsMappedB (ar : Arena) (inst : MXFunctionInternal) : Bool :=
  decide (inst.inputv_ind.length = inst.input_.length) &&
  decide (inst.inputv.length = inst.input_.length) &&
  ((List.range inst.input_.length).all fun i =>
    match inst.inputv.getD i none with
    | none => false
    | some nid => decide ((inst.alg.getD (inst.inputv_ind.getD i 0) default).node = nid))

/-! ## Concrete instances for witnesses and counterexamples -/

/-- A small node arena: two symbolic leaves, a 2-by-3 structural constant, a
nonlinear binary operation, a stray symbolic leaf and an operation with a
null dependency slot. -/
def arEx : Arena := ⟨[
  ⟨[], 1, 1, 1, true, false, false⟩,
  ⟨[], 3, 1, 3, true, false, false⟩,
  ⟨[], 2, 3, 6, false, true, false⟩,
  ⟨[some 0, some 1], 1, 1, 1, false, false, true⟩,
  ⟨[], 1, 1, 1, true, false, false⟩,
  ⟨[some 0, none], 1, 1, 1, false, false, false⟩]⟩

/-- Construct, taking the success branch (all examples use valid inputs). -/
def mkOr (ar : Arena) (ins outs : List (Option Nat)) : MXFunctionInternal :=
  match mkMXFunction ar ins outs 0 0 with
  | .ok i => i
  | .error _ => default

def instPre : MXFunctionInternal := mkOr arEx [some 0, some 1] [some 5]

def instEval : MXFunctionInternal :=
  mxInit arEx
    { mkOr arEx [some 0, some 1] [some 3] with
        nadir_ := 1, liftfun_ := true, liftfun_ud_ := 7 } [0, 1, 3]

def instNoLift : MXFunctionInternal :=
  mxInit arEx (mkOr arEx [some 0, some 1] [some 3]) [0, 1, 3]

def instConstOut : MXFunctionInternal := mxInit arEx (mkOr arEx [some 0] [some 2]) [0, 2]

def instStray : MXFunctionInternal := mxInit arEx (mkOr arEx [some 0] [some 4]) [0, 4]

def instUninit : MXFunctionInternal := mkOr arEx [some 0] [some 3]

def ruleZero : MXRule := fun _ _ => MXv.expr 1 1 0

def evalZero : NodeEvalFn := fun ctx =>
  { output := ctx.output0, fwdSens := [], adjSensNew := [] }

def extEx : ExtVals :=
  { input := [[5], [1, 2, 3]], fwdSeedV := [], adjSeedV := [[[1]]],
    output := [], fwdSensV := [], adjSensV := [[[0]], [[0, 0, 0]]] }

theorem updAt_length (k : Nat) (f : α → α) (l : List α) :
    (updAt k f l).length = l.length := by
  induction l generalizing k with
  | nil => simp [updAt]
  | cons x xs ih =>
    cases k with
    | zero => rfl
    | succ k' => simpa [updAt] using ih k'

theorem getD_updAt_ne (k j : Nat) (f : α → α) (l : List α) (d : α) (h : j ≠ k) :
    (updAt k f l).getD j d = l.getD j d := by
  induction l generalizing k j with
  | nil => simp [updAt]
  | cons x xs ih =>
    cases k with
    | zero =>
      cases j with
      | zero => exact absurd rfl h
      | succ j' => simp [updAt]
    | succ k' =>
      cases j with
      | zero => simp [updAt]
      | succ j' =>
        simpa [updAt] using ih k' j' (fun hc => h (by simpa using congrArg Nat.succ hc))

theorem getD_updAt_self (k : Nat) (f : α → α) (l : List α) (d : α) (h : k < l.length) :
    (updAt k f l).getD k d = f (l.getD k d) := by
  induction l generalizing k with
  | nil => simp at h
  | cons x xs ih =>
    cases k with
    | zero => rfl
    | succ k' => simpa [updAt] using ih k' (by simpa using h)

theorem updAt_id (k : Nat) (l : List α) : updAt k (fun x => x) l = l := by
  induction l generalizing k with
  | nil => simp [updAt]
  | cons x xs ih => cases k with
    | zero => rfl
    | succ k' => simpa [updAt] using ih k'

theorem setFirst_zero (news olds : List α) : setFirst 0 news olds = olds := by
  cases olds <;> cases news <;> rfl

theorem getD_setFirst_lt (k : Nat) (news olds : List α) (d : α) (j : Nat)
    (hk : j < k) (hn : j < news.length) (ho : j < olds.length) :
    (setFirst k news olds).getD j d = news.getD j d := by
  induction olds generalizing k news j with
  | nil => simp at ho
  | cons o os ih =>
    cases k with
    | zero => omega
    | succ k' =>
      cases news with
      | nil => simp at hn
      | cons n ns =>
        cases j with
        | zero => rfl
        | succ j' =>
          simpa [setFirst] using ih k' ns j' (by omega) (by simpa using hn) (by simpa using ho)

theorem posOf_lt_of_mem_take (x : Nat) (l : List Nat) (i : Nat)
    (h : x ∈ l.take i) : posOf x l < i := by
  induction l generalizing i with
  | nil => simp at h
  | cons y ys ih =>
    cases i with
    | zero => simp at h
    | succ i' =>
      by_cases hxy : y = x
      · simp [posOf, hxy]
      · have hx : x ∈ ys.take i' := by
          rcases (by simpa using h) with h' | h'
          · exact absurd h'.symm hxy
          · exact h'
        have := ih i' hx
        simp [posOf, hxy]; omega

theorem mem_of_mem_take {x : α} {l : List α} {i : Nat} (h : x ∈ l.take i) : x ∈ l :=
  List.mem_of_mem_take h

/-! ### Extraction lemmas for the sorter postcondition -/

theorem depsBeforeB_spec (ar : Arena) :
    ∀ (rest seen : List Nat), depsBeforeB ar seen rest = true →
    ∀ ii nid, rest.get? ii = some nid →
    ∀ dref ∈ (ar.node nid).deps, ∀ did, dref = some did →
    did ∈ seen ++ rest.take ii := by
  intro rest
  induction rest with
  | nil => intro seen _ ii nid h; simp at h
  | cons n rest' ih =>
    intro seen hb ii nid hget dref hmem did hd
    have hb' := hb
    simp only [depsBeforeB, Bool.and_eq_true] at hb'
    obtain ⟨hdeps, hrest⟩ := hb'
    cases ii with
    | zero =>
      have hn : n = nid := by simpa using hget
      subst hn
      subst hd
      have hall := (List.all_eq_true.mp hdeps) _ hmem
      simp only at hall
      simpa using hall
    | succ ii' =>
      have hget' : rest'.get? ii' = some nid := by simpa using hget
      have := ih (seen ++ [n]) hrest ii' nid hget' dref hmem did hd
      have : did ∈ (seen ++ [n]) ++ rest'.take ii' := this
      simpa [List.append_assoc, List.take_succ_cons] using this

/-! ## Claim C1: topological validity of the tape -/

/-- Claim C1: in every tape built by `init` from a depth-first-sorted node
list, each entry's resolved dependency slot is the sentinel `-1` exactly when
the dependency reference is null, and otherwise is a non-negative index
strictly smaller than the entry's own index. -/
theorem init_dep_slots_topological (ar : Arena) (inst : MXFunctionInternal)
    (nodes : List Nat)
    (hs : sortedForB ar inst.inputv inst.outputv nodes = true) :
    ∀ ii el, (mxInit ar inst nodes).alg.get? ii = some el →
    ∀ i dref, (ar.node el.node).deps.get? i = some dref →
      (el.ch.get? i = some (-1) ↔ dref = none) ∧
      (∀ did, dref = some did →
        ∃ c : Int, el.ch.get? i = some c ∧ 0 ≤ c ∧ c < (ii : Int)) := by
  intro ii el hget i dref hdep
  have hdeps : depsBeforeB ar [] nodes = true := by
    simp only [sortedForB, Bool.and_eq_true] at hs
    exact hs.2
  have hnode : ∃ nid, nodes.get? ii = some nid ∧ el = algElOf ar inst nodes nid := by
    have hthis := hget
    simp only [mxInit, List.get?_map] at hthis
    cases hn : nodes.get? ii with
    | none => rw [hn] at hthis; simp at hthis
    | some nid =>
      rw [hn] at hthis
      simp only [Option.map_some'] at hthis
      exact ⟨nid, rfl, (Option.some.inj hthis).symm⟩
  obtain ⟨nid, hn, hel⟩ := hnode
  have hnodeEq : el.node = nid := by rw [hel]; rfl
  have hchEq : el.ch = (ar.node nid).deps.map (chOfDep nodes) := by rw [hel]; rfl
  rw [hnodeEq] at hdep
  rw [hchEq]
  have hchget : ((ar.node nid).deps.map (chOfDep nodes)).get? i =
      some (chOfDep nodes dref) := by
    rw [List.get?_map, hdep]; rfl
  cases dref with
  | none =>
    refine ⟨by simpa [chOfDep] using hchget, ?_⟩
    intro did hdid; cases hdid
  | some did =>
    have hmemdep : (some did : Option Nat) ∈ (ar.node nid).deps :=
      List.get?_mem hdep
    have htake : did ∈ nodes.take ii := by
      have := depsBeforeB_spec ar nodes [] hdeps ii nid hn _ hmemdep did rfl
      simpa using this
    have hmem : did ∈ nodes := mem_of_mem_take htake
    have hpos : posOf did nodes < ii := posOf_lt_of_mem_take did nodes ii htake
    have htmp : tempOf nodes did = posOf did nodes := by simp [tempOf, hmem]
    have hchv : chOfDep nodes (some did) = ((tempOf nodes did : Nat) : Int) := rfl
    rw [hchv] at hchget
    constructor
    · constructor
      · intro habs
        have hinj : ((tempOf nodes did : Nat) : Int) = -1 :=
          Option.some.inj (hchget.symm.trans habs)
        omega
      · intro habs; cases habs
    · intro did2 hdid2
      have hdd : did2 = did := (Option.some.inj hdid2).symm
      subst hdd
      refine ⟨((tempOf nodes did2 : Nat) : Int), hchget, by positivity, ?_⟩
      rw [htmp]
      exact_mod_cast hpos

/-! ## Claim C7: construction validation -/

theorem checkInputsFrom_none_iff (ar : Arena) :
    ∀ (l : List (Option Nat)) (i : Nat),
      checkInputsFrom ar i l = none ↔ l.any (badInputB ar) = false := by
  intro l
  induction l with
  | nil => intro i; simp [checkInputsFrom]
  | cons mx rest ih =>
    intro i
    cases mx with
    | none => simp [checkInputsFrom, badInputB]
    | some nid =>
      by_cases hsym : (ar.node nid).symbolic
      · simp [checkInputsFrom, hsym, badInputB, ih (i + 1)]
      · simp [checkInputsFrom, hsym, badInputB]

theorem checkInputsFrom_some_spec (ar : Arena) :
    ∀ (l : List (Option Nat)) (i : Nat) (e : CtorErr),
      checkInputsFrom ar i l = some e →
      i ≤ e.idx ∧ e.idx - i < l.length ∧
      badInputB ar (l.getD (e.idx - i) none) = true ∧
      (∀ j, j < e.idx - i → badInputB ar (l.getD j none) = false) ∧
      (e.kind = CtorKind.nullArg ↔ l.getD (e.idx - i) none = none) := by
  intro l
  induction l with
  | nil => intro i e h; simp [checkInputsFrom] at h
  | cons mx rest ih =>
    intro i e h
    cases mx with
    | none =>
      have he : e = ⟨i, .nullArg⟩ := by
        simpa [checkInputsFrom] using h.symm
      subst he
      refine ⟨le_refl _, by simp, by simp [badInputB], ?_, by simp⟩
      intro j hj; simp [Nat.sub_self] at hj
    | some nid =>
      by_cases hsym : (ar.node nid).symbolic
      · have h' : checkInputsFrom ar (i + 1) rest = some e := by
          simpa [checkInputsFrom, hsym] using h
        obtain ⟨h1, h2, h3, h4, h5⟩ := ih (i + 1) e h'
        have hk : e.idx - i = (e.idx - (i + 1)) + 1 := by omega
        refine ⟨by omega, by simp [hk]; omega, ?_, ?_, ?_⟩
        · rw [hk]; simpa using h3
        · intro j hj
          cases j with
          | zero => simp [badInputB, hsym]
          | succ j' =>
            have : j' < e.idx - (i + 1) := by omega
            simpa using h4 j' this
        · rw [hk]; simpa using h5
      · have he : e = ⟨i, .nonSymbolic⟩ := by
          simpa [checkInputsFrom, hsym] using h.symm
        subst he
        refine ⟨le_refl _, by simp, by simp [badInputB, hsym], ?_, by simp⟩
        intro j hj; simp [Nat.sub_self] at hj

/-- Claim C7: construction raises a construction error iff some declared
input is null or not purely symbolic; the raised error carries the first
offending index and the violation kind (null vs. non-symbolic); when all
inputs are valid, construction succeeds and allocates one external I/O port
per declared input and output, sized to that expression's sparsity. -/
theorem ctor_validation (ar : Arena) (inputv outputv : List (Option Nat))
    (nf na : Nat) :
    ((∃ e, mkMXFunction ar inputv outputv nf na = .error e) ↔
      inputv.any (badInputB ar) = true) ∧
    (∀ e, mkMXFunction ar inputv outputv nf na = .error e →
      e.idx < inputv.length ∧
      badInputB ar (inputv.getD e.idx none) = true ∧
      (∀ j, j < e.idx → badInputB ar (inputv.getD j none) = false) ∧
      (e.kind = CtorKind.nullArg ↔ inputv.getD e.idx none = none)) ∧
    (inputv.any (badInputB ar) = false →
      ∃ inst, mkMXFunction ar inputv outputv nf na = .ok inst ∧
        inst.input_ = inputv.map (sparsityD ar) ∧
        inst.output_ = outputv.map (sparsityD ar) ∧
        inst.input_.length = inputv.length ∧
        inst.output_.length = outputv.length ∧
        inst.inputv = inputv ∧ inst.outputv = outputv ∧
        inst.initialized = false) := by
  refine ⟨?_, ?_, ?_⟩
  · constructor
    · rintro ⟨e, he⟩
      cases hc : checkInputsFrom ar 0 inputv with
      | none =>
        rw [mkMXFunction, hc] at he; simp at he
      | some e' =>
        by_contra hany
        have : checkInputsFrom ar 0 inputv = none :=
          (checkInputsFrom_none_iff ar inputv 0).mpr (by simpa using hany)
        rw [this] at hc; cases hc
    · intro hany
      cases hc : checkInputsFrom ar 0 inputv with
      | none =>
        have := (checkInputsFrom_none_iff ar inputv 0).mp hc
        rw [this] at hany; cases hany
      | some e =>
        exact ⟨e, by rw [mkMXFunction, hc]⟩
  · intro e he
    have hc : checkInputsFrom ar 0 inputv = some e := by
      cases hc : checkInputsFrom ar 0 inputv with
      | none => rw [mkMXFunction, hc] at he; simp at he
      | some e' =>
        rw [mkMXFunction, hc] at he
        simpa using he
    obtain ⟨_, h2, h3, h4, h5⟩ := checkInputsFrom_some_spec ar inputv 0 e hc
    exact ⟨by simpa using h2, by simpa using h3, by simpa using h4, by simpa using h5⟩
  · intro hany
    have hc : checkInputsFrom ar 0 inputv = none :=
      (checkInputsFrom_none_iff ar inputv 0).mpr hany
    refine ⟨_, by rw [mkMXFunction, hc], rfl, rfl, by simp, by simp, rfl, rfl, rfl⟩

/-! ### Structural lemmas about the engine -/

theorem catMaps_congr (f g : α → List β) :
    ∀ l : List α, (∀ a ∈ l, f a = g a) → catMaps f l = catMaps g l := by
  intro l
  induction l with
  | nil => intro _; rfl
  | cons a as ih =>
    intro h
    simp only [catMaps]
    rw [h a (List.mem_cons_self a as), ih fun x hx => h x (List.mem_cons_of_mem a hx)]

theorem catMaps_single (e : α → β) :
    ∀ l : List α, catMaps (fun a => [e a]) l = l.map e := by
  intro l
  induction l with
  | nil => rfl
  | cons a as ih => simp [catMaps, ih]

theorem map_catMaps (g : β → γ) (f : α → List β) :
    ∀ l : List α, (catMaps f l).map g = catMaps (fun a => (f a).map g) l := by
  intro l
  induction l with
  | nil => rfl
  | cons a as ih => simp [catMaps, ih]

theorem mem_catMaps (f : α → List β) (x : β) :
    ∀ l : List α, (x ∈ catMaps f l ↔ ∃ a ∈ l, x ∈ f a) := by
  intro l
  induction l with
  | nil => simp [catMaps]
  | cons a as ih => simp [catMaps, ih]

theorem getD_map_range (g : Nat → α) (n i : Nat) (d : α) (h : i < n) :
    ((List.range n).map g).getD i d = g i := by
  rw [List.getD_eq_getElem?_getD, List.getElem?_map, List.getElem?_range h]
  rfl

theorem getD_of_length_le (l : List α) (d : α) (i : Nat) (h : l.length ≤ i) :
    l.getD i d = d := by
  induction l generalizing i with
  | nil => simp
  | cons x xs ih =>
    cases i with
    | zero => simp at h
    | succ i' => simpa using ih i' (by simpa using h)

theorem getD_updAt_proj {γ : Type _} (proj : α → γ) (g : α → α)
    (hg : ∀ x, proj (g x) = proj x) (k j : Nat) (l : List α) (d : α) :
    proj ((updAt k g l).getD j d) = proj (l.getD j d) := by
  by_cases hj : j = k
  · subst hj
    by_cases hl : j < l.length
    · rw [getD_updAt_self _ _ _ _ hl, hg]
    · rw [getD_of_length_le _ _ _ (by rw [updAt_length]; omega),
        getD_of_length_le _ _ _ (by omega)]
  · rw [getD_updAt_ne _ _ _ _ _ hj]

theorem foldTr_fst_proj {γ : Type _} (step : σ → α → σ) (ev : σ → α → List Ev)
    (proj : σ → γ) (h : ∀ s a, proj (step s a) = proj s) :
    ∀ (l : List α) (s : σ), proj ((foldTr step ev s l).1) = proj s := by
  intro l
  induction l with
  | nil => intro s; rfl
  | cons a as ih => intro s; simp only [foldTr]; rw [ih, h]

theorem foldTr_trace (step : σ → α → σ) (ev0 : α → List Ev) :
    ∀ (l : List α) (s : σ), (foldTr step (fun _ a => ev0 a) s l).2 = catMaps ev0 l := by
  intro l
  induction l with
  | nil => intro s; rfl
  | cons a as ih => intro s; simp only [foldTr, catMaps]; rw [ih]

theorem foldTr_fst_updAt_getD (g : α → α) (ix : β → Nat) (ev : List α → β → List Ev) :
    ∀ (ks : List β) (l : List α) (k : Nat) (d : α), (∀ b ∈ ks, ix b ≠ k) →
    ((foldTr (fun a b => updAt (ix b) g a) ev l ks).1.getD k d) = l.getD k d := by
  intro ks
  induction ks with
  | nil => intro l k d _; rfl
  | cons b bs ih =>
    intro l k d h
    simp only [foldTr]
    rw [ih _ _ _ fun x hx => h x (List.mem_cons_of_mem b hx),
      getD_updAt_ne _ _ _ _ _ (fun hc => h b (List.mem_cons_self b bs) hc.symm)]

theorem foldTr_fst_updAt_getD_mem (g : α → α) (ev : List α → Nat → List Ev) :
    ∀ (ks : List Nat) (l : List α) (k : Nat) (d : α), ks.Nodup → k ∈ ks → k < l.length →
    ((foldTr (fun a j => updAt j g a) ev l ks).1.getD k d) = g (l.getD k d) := by
  intro ks
  induction ks with
  | nil => intro l k d _ hk _; simp at hk
  | cons j js ih =>
    intro l k d hnd hk hlen
    simp only [foldTr]
    rcases List.mem_cons.mp hk with hkj | hkm
    · subst hkj
      have hnotin : ∀ b ∈ js, (fun x => x) b ≠ k := by
        intro b hb hc
        exact (List.nodup_cons.mp hnd).1 (hc ▸ hb)
      rw [foldTr_fst_updAt_getD g (fun x => x) ev js _ k d hnotin,
        getD_updAt_self _ _ _ _ hlen]
    · have hne : k ≠ j := by
        intro hc; exact (List.nodup_cons.mp hnd).1 (hc ▸ hkm)
      rw [ih _ _ _ (List.nodup_cons.mp hnd).2 hkm (by rw [updAt_length]; exact hlen),
        getD_updAt_ne _ _ _ _ _ hne]

theorem applyDepAdj_length (nadir : Nat) :
    ∀ (ps : List (Int × List Buf)) (alg : List AlgEl),
      (applyDepAdj nadir alg ps).length = alg.length := by
  intro ps
  induction ps with
  | nil => intro alg; rfl
  | cons p rest ih =>
    intro alg
    obtain ⟨c, bufs⟩ := p
    simp only [applyDepAdj]
    rw [ih]
    by_cases hc : 0 ≤ c <;> simp [hc, updAt_length]

theorem applyDepAdj_proj {γ : Type _} (proj : AlgEl → γ) (nadir : Nat)
    (hg : ∀ (bufs : List Buf) (el : AlgEl),
      proj { el with val := { el.val with dataA := setFirst nadir bufs el.val.dataA } } = proj el) :
    ∀ (ps : List (Int × List Buf)) (alg : List AlgEl) (j : Nat) (d : AlgEl),
      proj ((applyDepAdj nadir alg ps).getD j d) = proj (alg.getD j d) := by
  intro ps
  induction ps with
  | nil => intro alg j d; rfl
  | cons p rest ih =>
    intro alg j d
    obtain ⟨c, bufs⟩ := p
    simp only [applyDepAdj]
    rw [ih]
    by_cases hc : 0 ≤ c
    · simp only [hc, if_true]
      exact getD_updAt_proj proj _ (fun el => hg bufs el) _ _ _ _
    · simp [hc]

theorem stepNode_length (f : NodeEvalFn) (nfdir nadir : Nat) (alg : List AlgEl) (k : Nat) :
    (stepNode f nfdir nadir alg k).length = alg.length := by
  unfold stepNode
  rw [applyDepAdj_length, updAt_length]

theorem stepNode_node (f : NodeEvalFn) (nfdir nadir : Nat) (alg : List AlgEl)
    (k j : Nat) (d : AlgEl) :
    ((stepNode f nfdir nadir alg k).getD j d).node = (alg.getD j d).node := by
  unfold stepNode
  rw [applyDepAdj_proj (fun el : AlgEl => el.node) nadir (fun _ _ => rfl)]
  refine getD_updAt_proj (fun el : AlgEl => el.node) _ ?_ _ _ _ _
  intro x; rfl

theorem stepNode_dataA_zero (f : NodeEvalFn) (nfdir : Nat) (alg : List AlgEl)
    (k j : Nat) (d : AlgEl) :
    ((stepNode f nfdir 0 alg k).getD j d).val.dataA = (alg.getD j d).val.dataA := by
  unfold stepNode
  rw [applyDepAdj_proj (fun el : AlgEl => el.val.dataA) 0
    (fun bufs el => by simp [setFirst_zero])]
  refine getD_updAt_proj (fun el : AlgEl => el.val.dataA) _ ?_ _ _ _ _
  intro x; rfl

theorem stepNode_data_ne (f : NodeEvalFn) (nfdir nadir : Nat) (alg : List AlgEl)
    (k j : Nat) (d : AlgEl) (h : j ≠ k) :
    ((stepNode f nfdir nadir alg k).getD j d).val.data = (alg.getD j d).val.data := by
  unfold stepNode
  rw [applyDepAdj_proj (fun el : AlgEl => el.val.data) nadir (fun _ _ => rfl)]
  rw [getD_updAt_ne _ _ _ _ _ h]

theorem fwdSweepGo_proj {γ : Type _} (f : NodeEvalFn) (ar : Arena) (lifted : Bool)
    (ud nfdir : Nat) (proj : List AlgEl → γ)
    (h : ∀ alg k, proj (stepNode f nfdir 0 alg k) = proj alg) :
    ∀ (ks : List Nat) (alg : List AlgEl),
      proj ((fwdSweepGo f ar lifted ud nfdir alg ks).1) = proj alg := by
  intro ks
  induction ks with
  | nil => intro alg; rfl
  | cons k ks ih => intro alg; simp only [fwdSweepGo]; rw [ih, h]

theorem fwdSweepGo_data_nm (f : NodeEvalFn) (ar : Arena) (lifted : Bool) (ud nfdir : Nat) :
    ∀ (ks : List Nat) (alg : List AlgEl) (k : Nat) (d : AlgEl), k ∉ ks →
    ((fwdSweepGo f ar lifted ud nfdir alg ks).1.getD k d).val.data = (alg.getD k d).val.data := by
  intro ks
  induction ks with
  | nil => intro alg k d _; rfl
  | cons k0 ks ih =>
    intro alg k d hk
    have hk0 : k ≠ k0 := fun h => hk (h ▸ List.mem_cons_self k0 ks)
    have hks : k ∉ ks := fun h => hk (List.mem_cons_of_mem k0 h)
    simp only [fwdSweepGo]
    rw [ih _ _ _ hks, stepNode_data_ne _ _ _ _ _ _ _ hk0]

theorem fwdSweepGo_trace (f : NodeEvalFn) (ar : Arena) (lifted : Bool) (ud nfdir : Nat) :
    ∀ (ks : List Nat) (alg : List AlgEl), ks.Nodup →
    (fwdSweepGo f ar lifted ud nfdir alg ks).2 =
      catMaps (fun k =>
        Ev.execFwd k ::
        (if lifted && (ar.node ((alg.getD k default).node)).nonlinear
         then [Ev.liftCall k
            (((fwdSweepGo f ar lifted ud nfdir alg ks).1.getD k default).val.data)
            ((ar.node ((alg.getD k default).node)).nnz) ud]
         else [])) ks := by
  intro ks
  induction ks with
  | nil => intro alg _; rfl
  | cons k0 ks ih =>
    intro alg hnd
    have hk0 : k0 ∉ ks := (List.nodup_cons.mp hnd).1
    have hnd' : ks.Nodup := (List.nodup_cons.mp hnd).2
    simp only [fwdSweepGo, catMaps]
    rw [ih _ hnd']
    congr 1
    · congr 2
      rw [fwdSweepGo_data_nm _ _ _ _ _ _ _ _ _ hk0]
    · refine catMaps_congr _ _ ks fun k hk => ?_
      rw [stepNode_node]

theorem getD_zeroDirs : ∀ (l : List Buf) (k d : Nat), d < k → d < l.length →
    (zeroDirs k l).getD d [] = List.replicate ((l.getD d []).length) 0 := by
  intro l
  induction l with
  | nil => intro k d _ h; simp at h
  | cons b bs ih =>
    intro k d hk hl
    cases k with
    | zero => omega
    | succ k' =>
      cases d with
      | zero => rfl
      | succ d' => simpa [zeroDirs] using ih k' d' (by omega) (by simpa using hl)

theorem passInputs_proj {γ : Type _} (inst : MXFunctionInternal) (ext : ExtVals)
    (proj : List AlgEl → γ)
    (h : ∀ (a : List AlgEl) (k : Nat) (v : Buf), proj (setSlotData k v a) = proj a) :
    ∀ alg, proj ((passInputs inst ext alg).1) = proj alg := by
  intro alg
  unfold passInputs
  exact foldTr_fst_proj _ _ proj (fun s ind => h s _ _) _ _

theorem passFwdSeeds_proj {γ : Type _} (inst : MXFunctionInternal) (ext : ExtVals)
    (nfdir : Nat) (proj : List AlgEl → γ)
    (h : ∀ (a : List AlgEl) (k dir : Nat) (v : Buf), proj (setSlotDataF k dir v a) = proj a) :
    ∀ alg, proj ((passFwdSeeds inst ext nfdir alg).1) = proj alg := by
  intro alg
  unfold passFwdSeeds
  exact foldTr_fst_proj _ _ proj (fun s p => h s _ _ _) _ _

theorem passInputs_len (inst : MXFunctionInternal) (ext : ExtVals) (alg : List AlgEl) :
    (passInputs inst ext alg).1.length = alg.length :=
  passInputs_proj inst ext (fun s => s.length)
    (fun a k v => by simp [setSlotData, updAt_length]) alg

theorem passFwdSeeds_len (inst : MXFunctionInternal) (ext : ExtVals) (nfdir : Nat)
    (alg : List AlgEl) : (passFwdSeeds inst ext nfdir alg).1.length = alg.length :=
  passFwdSeeds_proj inst ext nfdir (fun s => s.length)
    (fun a k dir v => by simp [setSlotDataF, updAt_length]) alg

theorem fwdSweepGo_len (f : NodeEvalFn) (ar : Arena) (lifted : Bool) (ud nfdir : Nat)
    (ks : List Nat) (alg : List AlgEl) :
    (fwdSweepGo f ar lifted ud nfdir alg ks).1.length = alg.length :=
  fwdSweepGo_proj f ar lifted ud nfdir (fun s => s.length)
    (fun a k => stepNode_length f nfdir 0 a k) ks alg

theorem forwardPass_len (f : NodeEvalFn) (ar : Arena) (inst : MXFunctionInternal)
    (ext : ExtVals) (nfdir : Nat) :
    (forwardPass f ar inst ext nfdir).1.length = inst.alg.length := by
  simp only [forwardPass]
  rw [fwdSweepGo_len, passFwdSeeds_len, passInputs_len]

theorem passInputs_node (inst : MXFunctionInternal) (ext : ExtVals) (alg : List AlgEl)
    (j : Nat) (d : AlgEl) :
    (((passInputs inst ext alg).1.getD j d)).node = (alg.getD j d).node :=
  passInputs_proj inst ext (fun s => (s.getD j d).node)
    (fun a k v => by
      simp only [setSlotData]
      refine getD_updAt_proj (fun el : AlgEl => el.node) _ ?_ k j a d
      intro x; rfl) alg

theorem passFwdSeeds_node (inst : MXFunctionInternal) (ext : ExtVals) (nfdir : Nat)
    (alg : List AlgEl) (j : Nat) (d : AlgEl) :
    (((passFwdSeeds inst ext nfdir alg).1.getD j d)).node = (alg.getD j d).node :=
  passFwdSeeds_proj inst ext nfdir (fun s => (s.getD j d).node)
    (fun a k dir v => by
      simp only [setSlotDataF]
      refine getD_updAt_proj (fun el : AlgEl => el.node) _ ?_ k j a d
      intro x; rfl) alg

theorem passInputs_dataA (inst : MXFunctionInternal) (ext : ExtVals) (alg : List AlgEl)
    (j : Nat) (d : AlgEl) :
    (((passInputs inst ext alg).1.getD j d)).val.dataA = (alg.getD j d).val.dataA :=
  passInputs_proj inst ext (fun s => (s.getD j d).val.dataA)
    (fun a k v => by
      simp only [setSlotData]
      refine getD_updAt_proj (fun el : AlgEl => el.val.dataA) _ ?_ k j a d
      intro x; rfl) alg

theorem passFwdSeeds_dataA (inst : MXFunctionInternal) (ext : ExtVals) (nfdir : Nat)
    (alg : List AlgEl) (j : Nat) (d : AlgEl) :
    (((passFwdSeeds inst ext nfdir alg).1.getD j d)).val.dataA = (alg.getD j d).val.dataA :=
  passFwdSeeds_proj inst ext nfdir (fun s => (s.getD j d).val.dataA)
    (fun a k dir v => by
      simp only [setSlotDataF]
      refine getD_updAt_proj (fun el : AlgEl => el.val.dataA) _ ?_ k j a d
      intro x; rfl) alg

theorem fwdSweepGo_dataA (f : NodeEvalFn) (ar : Arena) (lifted : Bool) (ud nfdir : Nat)
    (ks : List Nat) (alg : List AlgEl) (j : Nat) (d : AlgEl) :
    (((fwdSweepGo f ar lifted ud nfdir alg ks).1.getD j d)).val.dataA = (alg.getD j d).val.dataA :=
  fwdSweepGo_proj f ar lifted ud nfdir (fun s => (s.getD j d).val.dataA)
    (fun a k => stepNode_dataA_zero f nfdir a k j d) ks alg

theorem forwardPass_node (f : NodeEvalFn) (ar : Arena) (inst : MXFunctionInternal)
    (ext : ExtVals) (nfdir : Nat) (j : Nat) (d : AlgEl) :
    (((forwardPass f ar inst ext nfdir).1.getD j d)).node = (inst.alg.getD j d).node := by
  simp only [forwardPass]
  rw [fwdSweepGo_proj f ar _ _ nfdir (fun s => (s.getD j d).node)
      (fun a k => stepNode_node f nfdir 0 a k j d),
    passFwdSeeds_node, passInputs_node]

theorem forwardPass_dataA (f : NodeEvalFn) (ar : Arena) (inst : MXFunctionInternal)
    (ext : ExtVals) (nfdir : Nat) (j : Nat) (d : AlgEl) :
    (((forwardPass f ar inst ext nfdir).1.getD j d)).val.dataA = (inst.alg.getD j d).val.dataA := by
  simp only [forwardPass]
  rw [fwdSweepGo_dataA, passFwdSeeds_dataA, passInputs_dataA]

theorem forwardPass_adjSensV (f : NodeEvalFn) (ar : Arena) (inst : MXFunctionInternal)
    (ext : ExtVals) (nfdir : Nat) :
    (forwardPass f ar inst ext nfdir).2.1.adjSensV = ext.adjSensV := rfl

/-! ### Phase traces in closed form -/

theorem passInputs_trace (inst : MXFunctionInternal) (ext : ExtVals) (alg : List AlgEl) :
    (passInputs inst ext alg).2 = (List.range inst.input_.length).map Ev.setInput := by
  unfold passInputs
  rw [foldTr_trace]
  exact catMaps_single _ _

theorem passFwdSeeds_trace (inst : MXFunctionInternal) (ext : ExtVals) (nfdir : Nat)
    (alg : List AlgEl) :
    (passFwdSeeds inst ext nfdir alg).2 =
      catMaps (fun d => (List.range inst.input_.length).map fun i => Ev.setFwdSeed d i)
        (List.range nfdir) := by
  unfold passFwdSeeds
  rw [foldTr_trace, catMaps_single (fun p : Nat × Nat => Ev.setFwdSeed p.1 p.2),
    map_catMaps]
  refine catMaps_congr _ _ _ fun d _ => ?_
  simp [List.map_map, Function.comp]

theorem clearAdjPhase_trace (nadir : Nat) (alg : List AlgEl) :
    (clearAdjPhase nadir alg).2 =
      catMaps (fun k => (List.range nadir).map (Ev.clearAdj k)) (List.range alg.length) := by
  unfold clearAdjPhase
  rw [foldTr_trace]

theorem passAdjSeeds_trace (inst : MXFunctionInternal) (ext : ExtVals) (nadir : Nat)
    (alg : List AlgEl) :
    (passAdjSeeds inst ext nadir alg).2 =
      catMaps (fun i => (List.range nadir).map fun d => Ev.setAdjSeed i d)
        (List.range inst.outputv.length) := by
  unfold passAdjSeeds
  rw [foldTr_trace, catMaps_single (fun p : Nat × Nat => Ev.setAdjSeed p.1 p.2),
    map_catMaps]
  refine catMaps_congr _ _ _ fun i _ => ?_
  simp [List.map_map, Function.comp]

theorem adjSweepGo_trace (f : NodeEvalFn) (nadir : Nat) (alg : List AlgEl) (ks : List Nat) :
    (adjSweepGo f nadir alg ks).2 = ks.map Ev.execAdj := by
  unfold adjSweepGo
  rw [foldTr_trace]
  exact catMaps_single _ _

theorem clearAdjPhase_dataA_getD (nadir : Nat) (alg : List AlgEl) (k : Nat)
    (hk : k < alg.length) :
    (((clearAdjPhase nadir alg).1.getD k default)).val.dataA =
      zeroDirs nadir ((alg.getD k default).val.dataA) := by
  unfold clearAdjPhase
  rw [foldTr_fst_updAt_getD_mem _ _ (List.range alg.length) alg k default
    (List.nodup_range _) (List.mem_range.mpr hk) hk]

theorem pick_eq_nil (f : α → Option β) :
    ∀ l : List α, (∀ a ∈ l, f a = none) → pick f l = [] := by
  intro l
  induction l with
  | nil => intro _; rfl
  | cons a as ih =>
    intro h
    have ha := h a (List.mem_cons_self a as)
    simp only [pick, ha]
    exact ih fun x hx => h x (List.mem_cons_of_mem a hx)

/-! ## Claim C3: evaluate on an uninitialized instance -/

/-- Claim C3: calling `evaluate` on an instance whose tape has not been
built is rejected by the fatal precondition assertion before any tape
execution takes place; no result is produced. -/
theorem evaluate_uninitialized_fatal (f : NodeEvalFn) (ar : Arena)
    (inst : MXFunctionInternal) (ext : ExtVals) (nfdir nadir : Nat)
    (h : inst.initialized = false) :
    evaluateChecked f ar inst ext nfdir nadir = .error .notInitialized ∧
    (∀ r, evaluateChecked f ar inst ext nfdir nadir ≠ .ok r) := by
  constructor
  · simp [evaluateChecked, h]
  · intro r hr
    simp [evaluateChecked, h] at hr

/-! ## Claim C8: the lifting hook -/

/-- Claim C8: during the forward sweep of `evaluate`, the lifting callback
is invoked exactly for the entries whose node is nonlinear — immediately
after each such entry is evaluated, with that entry's output buffer, its
element count and the registered user data — and only when a callback is
registered; a null registration produces no invocation at all. -/
theorem evaluate_lifting_hook (f : NodeEvalFn) (ar : Arena)
    (inst : MXFunctionInternal) (ext : ExtVals) (nfdir nadir : Nat) :
    (evaluate f ar inst ext nfdir nadir).fwdTrace =
      (List.range inst.input_.length).map Ev.setInput ++
      catMaps (fun d => (List.range inst.input_.length).map fun i => Ev.setFwdSeed d i)
        (List.range nfdir) ++
      catMaps (fun k =>
        Ev.execFwd k ::
        (if inst.liftfun_ && (ar.node ((inst.alg.getD k default).node)).nonlinear
         then [Ev.liftCall k
            (((forwardPass f ar inst ext nfdir).1.getD k default).val.data)
            ((ar.node ((inst.alg.getD k default).node)).nnz) inst.liftfun_ud_]
         else [])) (List.range inst.alg.length) ++
      (List.range inst.outputv.length).map Ev.getOutput ++
      catMaps (fun d => (List.range inst.outputv.length).map fun i => Ev.getFwdSens d i)
        (List.range nfdir) ∧
    (inst.liftfun_ = false →
      pick liftIdx (evaluate f ar inst ext nfdir nadir).fwdTrace = []) := by
  have hfwd : (evaluate f ar inst ext nfdir nadir).fwdTrace =
      (forwardPass f ar inst ext nfdir).2.2 := by
    unfold evaluate
    by_cases h : 0 < nadir <;> simp [h]
  have hmain : (forwardPass f ar inst ext nfdir).2.2 =
      (List.range inst.input_.length).map Ev.setInput ++
      catMaps (fun d => (List.range inst.input_.length).map fun i => Ev.setFwdSeed d i)
        (List.range nfdir) ++
      catMaps (fun k =>
        Ev.execFwd k ::
        (if inst.liftfun_ && (ar.node ((inst.alg.getD k default).node)).nonlinear
         then [Ev.liftCall k
            (((forwardPass f ar inst ext nfdir).1.getD k default).val.data)
            ((ar.node ((inst.alg.getD k default).node)).nnz) inst.liftfun_ud_]
         else [])) (List.range inst.alg.length) ++
      (List.range inst.outputv.length).map Ev.getOutput ++
      catMaps (fun d => (List.range inst.outputv.length).map fun i => Ev.getFwdSens d i)
        (List.range nfdir) := by
    simp only [forwardPass]
    rw [passInputs_trace, passFwdSeeds_trace,
      fwdSweepGo_trace _ _ _ _ _ _ _ (List.nodup_range _)]
    have hC : catMaps (fun k =>
        Ev.execFwd k ::
        (if inst.liftfun_ &&
            (ar.node (((passFwdSeeds inst ext nfdir
              (passInputs inst ext inst.alg).1).1.getD k default).node)).nonlinear
         then [Ev.liftCall k
            (((fwdSweepGo f ar inst.liftfun_ inst.liftfun_ud_ nfdir
              (passFwdSeeds inst ext nfdir (passInputs inst ext inst.alg).1).1
              (List.range inst.alg.length)).1.getD k default).val.data)
            ((ar.node (((passFwdSeeds inst ext nfdir
              (passInputs inst ext inst.alg).1).1.getD k default).node)).nnz)
            inst.liftfun_ud_]
         else [])) (List.range inst.alg.length) =
        catMaps (fun k =>
        Ev.execFwd k ::
        (if inst.liftfun_ && (ar.node ((inst.alg.getD k default).node)).nonlinear
         then [Ev.liftCall k
            (((fwdSweepGo f ar inst.liftfun_ inst.liftfun_ud_ nfdir
              (passFwdSeeds inst ext nfdir (passInputs inst ext inst.alg).1).1
              (List.range inst.alg.length)).1.getD k default).val.data)
            ((ar.node ((inst.alg.getD k default).node)).nnz) inst.liftfun_ud_]
         else [])) (List.range inst.alg.length) := by
      refine catMaps_congr _ _ _ fun k _ => ?_
      rw [passFwdSeeds_node, passInputs_node]
    rw [hC]
    rfl
  refine ⟨by rw [hfwd]; exact hmain, ?_⟩
  intro hlift
  rw [hfwd, hmain]
  refine pick_eq_nil _ _ fun e he => ?_
  rcases List.mem_append.mp he with h1234 | hE
  rcases List.mem_append.mp h1234 with h123 | hD
  rcases List.mem_append.mp h123 with h12 | hC
  rcases List.mem_append.mp h12 with hA | hB
  · obtain ⟨i, _, rfl⟩ := List.mem_map.mp hA
    rfl
  · obtain ⟨d', _, hin⟩ := (mem_catMaps _ _ _).mp hB
    obtain ⟨i, _, rfl⟩ := List.mem_map.mp hin
    rfl
  · obtain ⟨k, _, hin⟩ := (mem_catMaps _ _ _).mp hC
    rw [hlift] at hin
    simp only [Bool.false_and, Bool.false_eq_true, if_false] at hin
    rcases List.mem_cons.mp hin with rfl | habs
    · rfl
    · simp at habs
  · obtain ⟨i, _, rfl⟩ := List.mem_map.mp hD
    rfl
  · obtain ⟨d', _, hin⟩ := (mem_catMaps _ _ _).mp hE
    obtain ⟨i, _, rfl⟩ := List.mem_map.mp hin
    rfl

/-! ## Claim C2: structure of the adjoint pass -/

/-- Claim C2: when `nadir > 0` the adjoint pass first zeroes every entry's
sensitivity buffer for every requested direction, then copies the caller's
adjoint seed for each output port into that port's mapped slot, then
executes all tape entries in strictly descending index order, and finally
copies each input port's mapped slot's sensitivity buffers to the
caller-visible adjoint storage; when `nadir = 0` none of these steps is
performed. -/
theorem evaluate_adjoint_structure (f : NodeEvalFn) (ar : Arena)
    (inst : MXFunctionInternal) (ext : ExtVals) (nfdir nadir : Nat) :
    (nadir = 0 →
      (evaluate f ar inst ext nfdir nadir).adjTrace = [] ∧
      (evaluate f ar inst ext nfdir nadir).ext.adjSensV = ext.adjSensV ∧
      (∀ k, ((evaluate f ar inst ext nfdir nadir).alg.getD k default).val.dataA =
        (inst.alg.getD k default).val.dataA)) ∧
    (0 < nadir →
      (evaluate f ar inst ext nfdir nadir).adjTrace =
        catMaps (fun k => (List.range nadir).map (Ev.clearAdj k))
          (List.range inst.alg.length) ++
        catMaps (fun i => (List.range nadir).map fun d => Ev.setAdjSeed i d)
          (List.range inst.outputv.length) ++
        ((List.range inst.alg.length).reverse).map Ev.execAdj ++
        catMaps (fun i => (List.range nadir).map fun d => Ev.getAdjSens i d)
          (List.range inst.input_.length) ∧
      List.Pairwise (fun a b => b < a) ((List.range inst.alg.length).reverse) ∧
      (∀ k, k < inst.alg.length → ∀ d, d < nadir →
        d < ((forwardPass f ar inst ext nfdir).1.getD k default).val.dataA.length →
        (((clearAdjPhase nadir (forwardPass f ar inst ext nfdir).1).1.getD k
            default).val.dataA.getD d []) =
          List.replicate
            (((forwardPass f ar inst ext nfdir).1.getD k
              default).val.dataA.getD d []).length 0) ∧
      (∀ ind, ind < inst.input_.length → ∀ d, d < nadir →
        d < (ext.adjSensV.getD ind []).length →
        (((evaluate f ar inst ext nfdir nadir).ext.adjSensV.getD ind []).getD d []) =
          (((evaluate f ar inst ext nfdir nadir).alg.getD
            (inst.inputv_ind.getD ind 0) default).val.dataA.getD d []))) := by
  constructor
  · intro h0
    subst h0
    refine ⟨by simp [evaluate], ?_, ?_⟩
    · have hext : (evaluate f ar inst ext nfdir 0).ext =
          (forwardPass f ar inst ext nfdir).2.1 := by simp [evaluate]
      rw [hext]
      exact forwardPass_adjSensV f ar inst ext nfdir
    · intro k
      have halg : (evaluate f ar inst ext nfdir 0).alg =
          (forwardPass f ar inst ext nfdir).1 := by simp [evaluate]
      rw [halg]
      exact forwardPass_dataA f ar inst ext nfdir k default
  · intro hpos
    have halg : (evaluate f ar inst ext nfdir nadir).alg =
        (adjointPass f inst (forwardPass f ar inst ext nfdir).1
          (forwardPass f ar inst ext nfdir).2.1 nadir).1 := by
      simp [evaluate, hpos]
    have hextq : (evaluate f ar inst ext nfdir nadir).ext =
        (adjointPass f inst (forwardPass f ar inst ext nfdir).1
          (forwardPass f ar inst ext nfdir).2.1 nadir).2.1 := by
      simp [evaluate, hpos]
    have hadjT : (evaluate f ar inst ext nfdir nadir).adjTrace =
        (adjointPass f inst (forwardPass f ar inst ext nfdir).1
          (forwardPass f ar inst ext nfdir).2.1 nadir).2.2 := by
      simp [evaluate, hpos]
    refine ⟨?_, ?_, ?_, ?_⟩
    · rw [hadjT]
      simp only [adjointPass]
      rw [clearAdjPhase_trace, passAdjSeeds_trace, adjSweepGo_trace,
        forwardPass_len]
      rfl
    · have h1 : (List.range inst.alg.length).Pairwise (· < ·) :=
        List.pairwise_lt_range _
      exact List.pairwise_reverse.mpr h1
    · intro k hk d hd hdl
      rw [clearAdjPhase_dataA_getD nadir _ k (by rw [forwardPass_len]; exact hk)]
      exact getD_zeroDirs _ nadir d hd hdl
    · intro ind hind d hd hdl
      rw [hextq, halg]
      simp only [adjointPass, getAdjSensPh]
      rw [getD_map_range _ _ _ _ hind]
      unfold collectDirsA
      rw [forwardPass_adjSensV]
      rw [getD_setFirst_lt nadir _ _ [] d hd (by simpa using hd) hdl]
      rw [getD_map_range _ _ _ _ hd]

/-! ### Lemmas about the differentiator -/

theorem ncolCheck_ok_of (ncol : Nat) :
    ∀ l : List MXv, (∀ s ∈ l, s.isNull = false) → (∀ s ∈ l, s.size2 = ncol) →
    ncolCheck ncol l = .ok () := by
  intro l
  induction l with
  | nil => intro _ _; rfl
  | cons s rest ih =>
    intro hnn hsz
    have h1 := hnn s (List.mem_cons_self s rest)
    have h2 := hsz s (List.mem_cons_self s rest)
    simp only [ncolCheck, h1, h2]
    simp [ih (fun x hx => hnn x (List.mem_cons_of_mem s hx))
      (fun x hx => hsz x (List.mem_cons_of_mem s hx))]

theorem ncolCheck_inconsistent_iff (ncol : Nat) :
    ∀ l : List MXv, (∀ s ∈ l, s.isNull = false) →
    ((ncolCheck ncol l = .error .inconsistent) ↔ ∃ s ∈ l, s.size2 ≠ ncol) := by
  intro l
  induction l with
  | nil => intro _; simp [ncolCheck]
  | cons s rest ih =>
    intro hnn
    have h1 := hnn s (List.mem_cons_self s rest)
    have hr := ih fun x hx => hnn x (List.mem_cons_of_mem s hx)
    by_cases h2 : s.size2 = ncol
    · have hred : ncolCheck ncol (s :: rest) = ncolCheck ncol rest := by
        simp [ncolCheck, h1, h2]
      rw [hred, hr]
      constructor
      · rintro ⟨x, hx, hne⟩
        exact ⟨x, List.mem_cons_of_mem s hx, hne⟩
      · rintro ⟨x, hx, hne⟩
        rcases List.mem_cons.mp hx with hxs | hx2
        · exact absurd h2 (hxs ▸ hne)
        · exact ⟨x, hx2, hne⟩
    · have hred : ncolCheck ncol (s :: rest) = .error .inconsistent := by
        simp [ncolCheck, h1, h2]
      rw [hred]
      constructor
      · intro _
        exact ⟨s, List.mem_cons_self s rest, h2⟩
      · intro _
        rfl

theorem ncolCheck_err_nonnull (ncol : Nat) :
    ∀ l : List MXv, (∀ s ∈ l, s.isNull = false) →
    ∀ e, ncolCheck ncol l = .error e → e = .inconsistent := by
  intro l
  induction l with
  | nil => intro _ e h; simp [ncolCheck] at h
  | cons s rest ih =>
    intro hnn e h
    have h1 := hnn s (List.mem_cons_self s rest)
    by_cases h2 : s.size2 = ncol
    · have hred : ncolCheck ncol (s :: rest) = ncolCheck ncol rest := by
        simp [ncolCheck, h1, h2]
      rw [hred] at h
      exact ih (fun x hx => hnn x (List.mem_cons_of_mem s hx)) e h
    · have hred : ncolCheck ncol (s :: rest) = .error .inconsistent := by
        simp [ncolCheck, h1, h2]
      rw [hred] at h
      exact (Except.error.inj h).symm

theorem seedGo_err (inst : MXFunctionInternal) (fseed : List MXv) :
    ∀ (ks : List Nat) (dw : List MXv) (e : AdErr),
      seedGo inst fseed ks dw = .error e → e = .ubSeedIndex := by
  intro ks
  induction ks with
  | nil => intro dw e h; simp [seedGo] at h
  | cons ind rest ih =>
    intro dw e h
    cases hg : fseed.get? ind with
    | none =>
      simp only [seedGo, hg] at h
      exact (Except.error.inj h).symm
    | some s =>
      simp only [seedGo, hg] at h
      exact ih _ _ h

theorem seedGo_ok_fold (inst : MXFunctionInternal) (fseed : List MXv) :
    ∀ (ks : List Nat) (dw : List MXv), (∀ ind ∈ ks, ind < fseed.length) →
    seedGo inst fseed ks dw = .ok (ks.foldl
      (fun a ind => updAt (inst.inputv_ind.getD ind 0) (fun _ => fseed.getD ind MXv.null) a)
      dw) := by
  intro ks
  induction ks with
  | nil => intro dw _; rfl
  | cons ind rest ih =>
    intro dw h
    have hlt : ind < fseed.length := h ind (List.mem_cons_self ind rest)
    have hg : fseed.get? ind = some (fseed.getD ind MXv.null) := by
      cases hg : fseed.get? ind with
      | none =>
        rw [List.get?_eq_none] at hg
        omega
      | some v =>
        have hv : fseed.getD ind MXv.null = v := by
          rw [List.getD_eq_getElem?_getD, ← List.get?_eq_getElem?, hg]
          rfl
        rw [hv]
    simp only [seedGo, hg, List.foldl_cons]
    exact ih _ fun x hx => h x (List.mem_cons_of_mem ind hx)

theorem seedGo_seedFold (inst : MXFunctionInternal) (fseed : List MXv)
    (hlen : inst.input_.length ≤ fseed.length) :
    seedGo inst fseed (List.range inst.input_.length)
      (List.replicate inst.alg.length MXv.null) = .ok (seedFold inst fseed) := by
  rw [seedGo_ok_fold]
  · rfl
  · intro ind hind
    have := List.mem_range.mp hind
    omega

theorem adWalk_err (ar : Arena) (inst : MXFunctionInternal) (rule : MXRule) (ncol : Nat) :
    ∀ (els : List Nat) (dw : List MXv) (e : AdErr),
      adWalk ar inst rule ncol els dw = .error e → e = .emptyDeps := by
  intro els
  induction els with
  | nil => intro dw e h; simp [adWalk] at h
  | cons el rest ih =>
    intro dw e h
    by_cases h1 : (dw.getD el MXv.null).isNull = false
    · simp only [adWalk, h1, if_true] at h
      exact ih _ _ h
    · by_cases h2 : (ar.node ((inst.alg.getD el default).node)).constant = true
      · simp only [adWalk, h1, if_false, h2, if_true] at h
        exact ih _ _ h
      · by_cases h3 : ((inst.alg.getD el default).ch).isEmpty = true
        · simp only [adWalk, h1, if_false, h2, h3, if_true] at h
          exact (Except.error.inj h).symm
        · simp only [adWalk, h1, if_false, h2, h3] at h
          exact ih _ _ h

theorem adWalk_cons (ar : Arena) (inst : MXFunctionInternal) (rule : MXRule)
    (ncol : Nat) (el : Nat) (rest : List Nat) (dw : List MXv) :
    adWalk ar inst rule ncol (el :: rest) dw =
      if (dw.getD el MXv.null).isNull = false then adWalk ar inst rule ncol rest dw
      else
        if (ar.node ((inst.alg.getD el default).node)).constant then
          adWalk ar inst rule ncol rest
            (updAt el (fun _ => MXv.zeros ((ar.node ((inst.alg.getD el default).node)).numel) ncol) dw)
        else
          if ((inst.alg.getD el default).ch).isEmpty then .error .emptyDeps
          else
            adWalk ar inst rule ncol rest
              (updAt el (fun _ => rule (inst.alg.getD el default).node
                (((inst.alg.getD el default).ch).map fun c =>
                  if 0 ≤ c then dw.getD c.toNat MXv.null else MXv.null)) dw) := rfl

theorem adWalk_nm (ar : Arena) (inst : MXFunctionInternal) (rule : MXRule) (ncol : Nat) :
    ∀ (els : List Nat) (dw dw' : List MXv) (el : Nat), el ∉ els →
      adWalk ar inst rule ncol els dw = .ok dw' →
      dw'.getD el MXv.null = dw.getD el MXv.null := by
  intro els
  induction els with
  | nil =>
    intro dw dw' el _ h
    simp only [adWalk] at h
    rw [← Except.ok.inj h]
  | cons el0 rest ih =>
    intro dw dw' el hmem h
    have hne : el ≠ el0 := fun hc => hmem (hc ▸ List.mem_cons_self el0 rest)
    have hrest : el ∉ rest := fun hc => hmem (List.mem_cons_of_mem el0 hc)
    rw [adWalk_cons] at h
    by_cases h1 : (dw.getD el0 MXv.null).isNull = false
    · rw [if_pos h1] at h
      exact ih _ _ _ hrest h
    · rw [if_neg h1] at h
      by_cases h2 : (ar.node ((inst.alg.getD el0 default).node)).constant = true
      · rw [if_pos h2] at h
        rw [ih _ _ _ hrest h, getD_updAt_ne _ _ _ _ _ hne]
      · rw [if_neg h2] at h
        by_cases h3 : ((inst.alg.getD el0 default).ch).isEmpty = true
        · rw [if_pos h3] at h
          cases h
        · rw [if_neg h3] at h
          rw [ih _ _ _ hrest h, getD_updAt_ne _ _ _ _ _ hne]

theorem adWalk_fails (ar : Arena) (inst : MXFunctionInternal) (rule : MXRule) (ncol : Nat) :
    ∀ (els : List Nat) (dw : List MXv) (el : Nat), el ∈ els →
      (dw.getD el MXv.null).isNull = true →
      (ar.node ((inst.alg.getD el default).node)).constant = false →
      (inst.alg.getD el default).ch = [] →
      ∀ r, adWalk ar inst rule ncol els dw ≠ .ok r := by
  intro els
  induction els with
  | nil => intro dw el h; simp at h
  | cons el0 rest ih =>
    intro dw el hmem hnull hconst hch r h
    rw [adWalk_cons] at h
    by_cases heq : el = el0
    · subst heq
      have h1 : ¬((dw.getD el MXv.null).isNull = false) := by
        rw [hnull]; simp
      have h2 : ¬((ar.node ((inst.alg.getD el default).node)).constant = true) := by
        rw [hconst]; simp
      have h3 : ((inst.alg.getD el default).ch).isEmpty = true := by
        rw [hch]; rfl
      rw [if_neg h1, if_neg h2, if_pos h3] at h
      cases h
    · have hmem' : el ∈ rest := by
        rcases List.mem_cons.mp hmem with hc | hc
        · exact absurd hc heq
        · exact hc
      by_cases h1 : (dw.getD el0 MXv.null).isNull = false
      · rw [if_pos h1] at h
        exact ih _ _ hmem' hnull hconst hch r h
      · rw [if_neg h1] at h
        by_cases h2 : (ar.node ((inst.alg.getD el0 default).node)).constant = true
        · rw [if_pos h2] at h
          refine ih _ _ hmem' ?_ hconst hch r h
          rw [getD_updAt_ne _ _ _ _ _ heq]
          exact hnull
        · rw [if_neg h2] at h
          by_cases h3 : ((inst.alg.getD el0 default).ch).isEmpty = true
          · rw [if_pos h3] at h
            cases h
          · rw [if_neg h3] at h
            refine ih _ _ hmem' ?_ hconst hch r h
            rw [getD_updAt_ne _ _ _ _ _ heq]
            exact hnull

theorem adWalk_stuck (ar : Arena) (inst : MXFunctionInternal) (rule : MXRule) (ncol : Nat)
    (els : List Nat) (dw : List MXv) (el : Nat) (hmem : el ∈ els)
    (hnull : (dw.getD el MXv.null).isNull = true)
    (hconst : (ar.node ((inst.alg.getD el default).node)).constant = false)
    (hch : (inst.alg.getD el default).ch = []) :
    adWalk ar inst rule ncol els dw = .error .emptyDeps := by
  cases hres : adWalk ar inst rule ncol els dw with
  | error e => rw [adWalk_err ar inst rule ncol els dw e hres]
  | ok r => exact absurd hres (adWalk_fails ar inst rule ncol els dw el hmem hnull hconst hch r)

theorem adWalk_total (ar : Arena) (inst : MXFunctionInternal) (rule : MXRule) (ncol : Nat) :
    ∀ (els : List Nat) (dw : List MXv), els.Nodup →
      (∀ el ∈ els, (dw.getD el MXv.null).isNull = true →
        (ar.node ((inst.alg.getD el default).node)).constant = false →
        (inst.alg.getD el default).ch ≠ []) →
      ∃ dw', adWalk ar inst rule ncol els dw = .ok dw' := by
  intro els
  induction els with
  | nil => intro dw _ _; exact ⟨dw, rfl⟩
  | cons el0 rest ih =>
    intro dw hnd hgood
    have hnd' : rest.Nodup := (List.nodup_cons.mp hnd).2
    have hnm : el0 ∉ rest := (List.nodup_cons.mp hnd).1
    by_cases h1 : (dw.getD el0 MXv.null).isNull = false
    · obtain ⟨dw', hdw'⟩ := ih dw hnd' fun x hx => hgood x (List.mem_cons_of_mem el0 hx)
      refine ⟨dw', ?_⟩
      rw [adWalk_cons, if_pos h1]
      exact hdw'
    · have h1' : (dw.getD el0 MXv.null).isNull = true := by
        cases hb : (dw.getD el0 MXv.null).isNull
        · exact absurd hb h1
        · rfl
      by_cases h2 : (ar.node ((inst.alg.getD el0 default).node)).constant = true
      · have hgood' : ∀ x ∈ rest,
            (((updAt el0 (fun _ => MXv.zeros ((ar.node ((inst.alg.getD el0 default).node)).numel) ncol) dw).getD x MXv.null).isNull = true) →
            (ar.node ((inst.alg.getD x default).node)).constant = false →
            (inst.alg.getD x default).ch ≠ [] := by
          intro x hx hxnull
          have hxne : x ≠ el0 := fun hc => hnm (hc ▸ hx)
          rw [getD_updAt_ne _ _ _ _ _ hxne] at hxnull
          exact hgood x (List.mem_cons_of_mem el0 hx) hxnull
        obtain ⟨dw', hdw'⟩ := ih _ hnd' hgood'
        refine ⟨dw', ?_⟩
        rw [adWalk_cons, if_neg h1, if_pos h2]
        exact hdw'
      · have hch : (inst.alg.getD el0 default).ch ≠ [] := by
          refine hgood el0 (List.mem_cons_self el0 rest) h1' ?_
          cases hb : (ar.node ((inst.alg.getD el0 default).node)).constant
          · rfl
          · exact absurd hb h2
        have h3 : ¬(((inst.alg.getD el0 default).ch).isEmpty = true) := by
          cases hc : (inst.alg.getD el0 default).ch with
          | nil => exact absurd hc hch
          | cons a as => simp
        have hgood' : ∀ x ∈ rest,
            (((updAt el0 (fun _ => rule (inst.alg.getD el0 default).node
              (((inst.alg.getD el0 default).ch).map fun c =>
                if 0 ≤ c then dw.getD c.toNat MXv.null else MXv.null)) dw).getD x MXv.null).isNull = true) →
            (ar.node ((inst.alg.getD x default).node)).constant = false →
            (inst.alg.getD x default).ch ≠ [] := by
          intro x hx hxnull
          have hxne : x ≠ el0 := fun hc => hnm (hc ▸ hx)
          rw [getD_updAt_ne _ _ _ _ _ hxne] at hxnull
          exact hgood x (List.mem_cons_of_mem el0 hx) hxnull
        obtain ⟨dw', hdw'⟩ := ih _ hnd' hgood'
        refine ⟨dw', ?_⟩
        rw [adWalk_cons, if_neg h1, if_neg h2, if_neg h3]
        exact hdw'

theorem map_congr_mem (f g : α → β) :
    ∀ l : List α, (∀ a ∈ l, f a = g a) → l.map f = l.map g := by
  intro l
  induction l with
  | nil => intro _; rfl
  | cons a as ih =>
    intro h
    simp only [List.map_cons]
    rw [h a (List.mem_cons_self a as), ih fun x hx => h x (List.mem_cons_of_mem a hx)]

/-! ## Claim C6 (amended): constants memoize a zero derivative -/

/-- Claim C6, amended: during the walk of `adFwd` every still-unseeded slot
whose node is a structural constant receives as its memoized derivative the
zero expression `MX::zeros(numel, ncol)` — its row count is the constant
node's dense element count (`numel()`), not the node's row count — with the
common seed column count as its column count. -/
theorem adWalk_constant_zero_memo (ar : Arena) (inst : MXFunctionInternal)
    (rule : MXRule) (ncol : Nat) :
    ∀ (els : List Nat) (dw dw' : List MXv) (el : Nat), els.Nodup → el ∈ els →
      el < dw.length →
      (dw.getD el MXv.null).isNull = true →
      (ar.node ((inst.alg.getD el default).node)).constant = true →
      adWalk ar inst rule ncol els dw = .ok dw' →
      dw'.getD el MXv.null =
        MXv.zeros ((ar.node ((inst.alg.getD el default).node)).numel) ncol := by
  intro els
  induction els with
  | nil => intro dw dw' el _ hmem; simp at hmem
  | cons el0 rest ih =>
    intro dw dw' el hnd hmem hlen hnull hconst hok
    have hnd' : rest.Nodup := (List.nodup_cons.mp hnd).2
    have hnm : el0 ∉ rest := (List.nodup_cons.mp hnd).1
    rw [adWalk_cons] at hok
    by_cases heq : el = el0
    · subst heq
      have h1 : ¬((dw.getD el MXv.null).isNull = false) := by rw [hnull]; simp
      rw [if_neg h1, if_pos hconst] at hok
      have hpres := adWalk_nm ar inst rule ncol rest _ dw' el hnm hok
      rw [hpres, getD_updAt_self _ _ _ _ hlen]
    · have hmem' : el ∈ rest := by
        rcases List.mem_cons.mp hmem with hc | hc
        · exact absurd hc heq
        · exact hc
      by_cases h1 : (dw.getD el0 MXv.null).isNull = false
      · rw [if_pos h1] at hok
        exact ih _ _ _ hnd' hmem' hlen hnull hconst hok
      · rw [if_neg h1] at hok
        by_cases h2 : (ar.node ((inst.alg.getD el0 default).node)).constant = true
        · rw [if_pos h2] at hok
          refine ih _ _ _ hnd' hmem' (by rw [updAt_length]; exact hlen) ?_ hconst hok
          rw [getD_updAt_ne _ _ _ _ _ heq]
          exact hnull
        · rw [if_neg h2] at hok
          by_cases h3 : ((inst.alg.getD el0 default).ch).isEmpty = true
          · rw [if_pos h3] at hok
            cases hok
          · rw [if_neg h3] at hok
            refine ih _ _ _ hnd' hmem' (by rw [updAt_length]; exact hlen) ?_ hconst hok
            rw [getD_updAt_ne _ _ _ _ _ heq]
            exact hnull

/-! ## Claim C9: adFwd on an empty seed list -/

/-- Claim C9: `adFwd` reads the first seed's column count before any
emptiness or size check; on an empty seed list the read is undefined
behaviour (modelled as the designated marker), so the operation has no
defined result — the seed list being non-empty is an unstated
precondition. -/
theorem adFwd_empty_seeds_undefined (ar : Arena) (inst : MXFunctionInternal)
    (rule : MXRule) (hinit : inst.initialized = true) :
    adFwdFull ar inst rule [] = .error .ubEmptyFront := by
  simp [adFwdFull, hinit]

/-! ## Claim C4 (amended): seed column-count consistency -/

/-- Claim C4, amended: `adFwd` raises the consistency error exactly when
some seed's column count differs from the first seed's; in that case the
outcome is independent of every node differentiation rule (no derivative
expression is constructed, no memo slot filled).  When all column counts
agree the consistency check passes; the computation then completes fully
provided a seed is supplied for every declared input and every
still-unseeded non-constant slot has at least one dependency (otherwise the
walk's own assertion fires, see the dependency-free-slot theorem). -/
theorem adFwd_consistency (ar : Arena) (inst : MXFunctionInternal) (rule : MXRule)
    (fseed : List MXv) (s0 : MXv) (rest : List MXv)
    (hinit : inst.initialized = true) (hs : fseed = s0 :: rest)
    (hnn : ∀ s ∈ fseed, s.isNull = false) :
    ((adFwdFull ar inst rule fseed = .error .inconsistent) ↔
      ∃ s ∈ fseed, s.size2 ≠ s0.size2) ∧
    ((∃ s ∈ fseed, s.size2 ≠ s0.size2) →
      ∀ r1 r2 : MXRule, adFwdFull ar inst r1 fseed = adFwdFull ar inst r2 fseed) ∧
    ((∀ s ∈ fseed, s.size2 = s0.size2) → inst.input_.length ≤ fseed.length →
      (∀ el, el < inst.alg.length →
        ((seedFold inst fseed).getD el MXv.null).isNull = true →
        (ar.node ((inst.alg.getD el default).node)).constant = false →
        (inst.alg.getD el default).ch ≠ []) →
      ∃ res, adFwdFull ar inst rule fseed = .ok res) := by
  subst hs
  have hs0 : s0.isNull = false := hnn s0 (List.mem_cons_self s0 rest)
  have hred : ∀ r : MXRule, adFwdFull ar inst r (s0 :: rest) =
      (match ncolCheck s0.size2 (s0 :: rest) with
       | .error e => .error e
       | .ok _ =>
         match seedGo inst (s0 :: rest) (List.range inst.input_.length)
             (List.replicate inst.alg.length MXv.null) with
         | .error e => .error e
         | .ok dw1 =>
           match adWalk ar inst r s0.size2 (List.range inst.alg.length) dw1 with
           | .error e => .error e
           | .ok dw2 => .ok (dw2, (List.range inst.outputv.length).map fun ind =>
               dw2.getD (inst.outputv_ind.getD ind 0) MXv.null)) := by
    intro r
    simp [adFwdFull, hinit, hs0]
  refine ⟨?_, ?_, ?_⟩
  · cases hnc : ncolCheck s0.size2 (s0 :: rest) with
    | error e =>
      have he : e = .inconsistent := ncolCheck_err_nonnull _ _ hnn e hnc
      subst he
      have hfull : adFwdFull ar inst rule (s0 :: rest) = .error .inconsistent := by
        simp [adFwdFull, hinit, hs0, hnc]
      rw [hfull]
      exact ⟨fun _ => (ncolCheck_inconsistent_iff _ _ hnn).mp hnc, fun _ => rfl⟩
    | ok u =>
      have hall : ∀ s ∈ (s0 :: rest), s.size2 = s0.size2 := by
        by_contra hex
        push_neg at hex
        obtain ⟨s, hsm, hne⟩ := hex
        have hcontra := (ncolCheck_inconsistent_iff _ _ hnn).mpr ⟨s, hsm, hne⟩
        rw [hnc] at hcontra
        cases hcontra
      have hnev : adFwdFull ar inst rule (s0 :: rest) ≠ .error .inconsistent := by
        cases hsg : seedGo inst (s0 :: rest) (List.range inst.input_.length)
            (List.replicate inst.alg.length MXv.null) with
        | error e =>
          have he := seedGo_err inst (s0 :: rest) _ _ e hsg
          subst he
          have hfull : adFwdFull ar inst rule (s0 :: rest) = .error .ubSeedIndex := by
            simp [adFwdFull, hinit, hs0, hnc, hsg]
          rw [hfull]
          intro hc
          exact AdErr.noConfusion (Except.error.inj hc)
        | ok dw1 =>
          cases hw : adWalk ar inst rule s0.size2 (List.range inst.alg.length) dw1 with
          | error e =>
            have he := adWalk_err ar inst rule s0.size2 _ _ e hw
            subst he
            have hfull : adFwdFull ar inst rule (s0 :: rest) = .error .emptyDeps := by
              simp [adFwdFull, hinit, hs0, hnc, hsg, hw]
            rw [hfull]
            intro hc
            exact AdErr.noConfusion (Except.error.inj hc)
          | ok dw2 =>
            have hfull : adFwdFull ar inst rule (s0 :: rest) =
                .ok (dw2, (List.range inst.outputv.length).map fun ind =>
                  dw2.getD (inst.outputv_ind.getD ind 0) MXv.null) := by
              simp [adFwdFull, hinit, hs0, hnc, hsg, hw]
            rw [hfull]
            intro hc
            exact Except.noConfusion hc
      constructor
      · intro habs
        exact absurd habs hnev
      · intro hex
        exfalso
        obtain ⟨s, hsm, hne⟩ := hex
        exact hne (hall s hsm)
  · intro hex r1 r2
    have hncE : ncolCheck s0.size2 (s0 :: rest) = .error .inconsistent :=
      (ncolCheck_inconsistent_iff _ _ hnn).mpr hex
    rw [hred r1, hred r2, hncE]
  · intro hall hlen hgood
    have hncO : ncolCheck s0.size2 (s0 :: rest) = .ok () :=
      ncolCheck_ok_of _ _ hnn hall
    have hsg := seedGo_seedFold inst (s0 :: rest) hlen
    have hg : ∀ el ∈ List.range inst.alg.length,
        ((seedFold inst (s0 :: rest)).getD el MXv.null).isNull = true →
        (ar.node ((inst.alg.getD el default).node)).constant = false →
        (inst.alg.getD el default).ch ≠ [] := by
      intro el hel
      exact hgood el (List.mem_range.mp hel)
    obtain ⟨dw', hw⟩ := adWalk_total ar inst rule s0.size2 (List.range inst.alg.length)
      (seedFold inst (s0 :: rest)) (List.nodup_range _) hg
    refine ⟨(dw', (List.range inst.outputv.length).map fun ind =>
      dw'.getD (inst.outputv_ind.getD ind 0) MXv.null), ?_⟩
    simp [adFwdFull, hinit, hs0, hncO, hsg, hw]

/-! ## Claim C10: unseeded dependency-free non-constant slots -/

/-- Claim C10: during the walk every still-unseeded non-constant slot is
asserted to have at least one dependency, so `adFwd` fails by that
assertion — rather than producing a derivative — whenever the tape contains
a dependency-free non-constant node that was not seeded (such as a symbolic
leaf not among the declared inputs). -/
theorem adFwd_unseeded_sourceless_fails (ar : Arena) (inst : MXFunctionInternal)
    (rule : MXRule) (fseed : List MXv) (s0 : MXv) (rest : List MXv) (el : Nat)
    (hinit : inst.initialized = true) (hs : fseed = s0 :: rest)
    (hnn : ∀ s ∈ fseed, s.isNull = false)
    (hcons : ∀ s ∈ fseed, s.size2 = s0.size2)
    (hlen : inst.input_.length ≤ fseed.length)
    (hel : el < inst.alg.length)
    (hnull : ((seedFold inst fseed).getD el MXv.null).isNull = true)
    (hnc : (ar.node ((inst.alg.getD el default).node)).constant = false)
    (hch : (inst.alg.getD el default).ch = []) :
    adFwdFull ar inst rule fseed = .error .emptyDeps := by
  subst hs
  have hs0 : s0.isNull = false := hnn s0 (List.mem_cons_self s0 rest)
  have hncO : ncolCheck s0.size2 (s0 :: rest) = .ok () :=
    ncolCheck_ok_of _ _ hnn hcons
  have hsg := seedGo_seedFold inst (s0 :: rest) hlen
  have hw : adWalk ar inst rule s0.size2 (List.range inst.alg.length)
      (seedFold inst (s0 :: rest)) = .error .emptyDeps :=
    adWalk_stuck ar inst rule s0.size2 _ _ el (List.mem_range.mpr hel) hnull hnc hch
  simp [adFwdFull, hinit, hs0, hncO, hsg, hw]

/-! ## Claim C5: the seed matrices built by jac -/

theorem inputsMappedB_spec (ar : Arena) (inst : MXFunctionInternal)
    (h : inputsMappedB ar inst = true) :
    inst.inputv_ind.length = inst.input_.length ∧
    inst.inputv.length = inst.input_.length ∧
    ∀ i, i < inst.input_.length →
      (inst.alg.getD (inst.inputv_ind.getD i 0) default).node =
        (inst.inputv.getD i none).getD 0 := by
  simp only [inputsMappedB, Bool.and_eq_true, decide_eq_true_eq, List.all_eq_true] at h
  obtain ⟨⟨h1, h2⟩, h3⟩ := h
  refine ⟨h1, h2, ?_⟩
  intro i hi
  have hmem := h3 i (List.mem_range.mpr hi)
  cases hg : inst.inputv.getD i none with
  | none => rw [hg] at hmem; simp at hmem
  | some nid =>
    rw [hg] at hmem
    simp only [decide_eq_true_eq] at hmem
    simpa using hmem

/-- Claim C5: for an initialized instance and a valid input index, `jac`
builds exactly one seed expression per declared input — an identity matrix
whose row and column count both equal the targeted input's row count, and
for every other input a zero matrix with that input's row count and the
targeted input's row count as column count — and returns the result of
delegating these seeds to `adFwd`. -/
theorem jac_seed_construction (ar : Arena) (inst : MXFunctionInternal)
    (rule : MXRule) (iind : Nat)
    (hinit : inst.initialized = true) (hii : iind < inst.input_.length)
    (hmap : inputsMappedB ar inst = true) :
    jac ar inst rule iind = adFwd ar inst rule (jacSeeds ar inst iind) ∧
    (jacSeeds ar inst iind).length = inst.input_.length ∧
    (jacSeeds ar inst iind).getD iind MXv.null =
      MXv.eye ((inputNode ar inst iind).nrow) ∧
    (MXv.eye ((inputNode ar inst iind).nrow)).size1 = (inputNode ar inst iind).nrow ∧
    (MXv.eye ((inputNode ar inst iind).nrow)).size2 = (inputNode ar inst iind).nrow ∧
    (∀ j, j < inst.input_.length → j ≠ iind →
      (jacSeeds ar inst iind).getD j MXv.null =
        MXv.zeros ((inputNode ar inst j).nrow) ((inputNode ar inst iind).nrow)) := by
  obtain ⟨l1, l2, hnode⟩ := inputsMappedB_spec ar inst hmap
  have hrow : ∀ i, i < inst.input_.length →
      (ar.node ((inst.alg.getD (inst.inputv_ind.getD i 0) default).node)).nrow =
      (inputNode ar inst i).nrow := by
    intro i hi
    rw [hnode i hi]
    rfl
  refine ⟨?_, ?_, ?_, rfl, rfl, ?_⟩
  · simp only [jac, hinit]
    have hif : ¬(true = false) := by simp
    rw [if_neg hif]
    refine congrArg (adFwd ar inst rule) ?_
    unfold jacSeeds
    refine map_congr_mem _ _ _ fun ind hind => ?_
    have hindlt : ind < inst.input_.length := List.mem_range.mp hind
    by_cases hcase : ind = iind
    · subst hcase
      rw [if_pos rfl, if_pos rfl, hrow ind hindlt]
    · rw [if_neg hcase, if_neg hcase, hrow ind hindlt, hrow iind hii]
  · simp [jacSeeds]
  · unfold jacSeeds
    rw [getD_map_range _ _ _ _ hii]
    simp
  · intro j hj hne
    unfold jacSeeds
    rw [getD_map_range _ _ _ _ hj]
    simp [hne]

/-! ## Witnesses and counterexamples -/

theorem c1_witness :
    sortedForB arEx instPre.inputv instPre.outputv [0, 1, 5] = true ∧
    (∀ ii el, (mxInit arEx instPre [0, 1, 5]).alg.get? ii = some el →
      ∀ i dref, (arEx.node el.node).deps.get? i = some dref →
        (el.ch.get? i = some (-1) ↔ dref = none) ∧
        (∀ did, dref = some did →
          ∃ c : Int, el.ch.get? i = some c ∧ 0 ≤ c ∧ c < (ii : Int))) :=
  ⟨by decide, init_dep_slots_topological arEx instPre [0, 1, 5] (by decide)⟩

theorem c2_witness :
    (evaluate evalZero arEx instEval extEx 0 1).adjTrace =
      catMaps (fun k => (List.range 1).map (Ev.clearAdj k))
        (List.range instEval.alg.length) ++
      catMaps (fun i => (List.range 1).map fun d => Ev.setAdjSeed i d)
        (List.range instEval.outputv.length) ++
      ((List.range instEval.alg.length).reverse).map Ev.execAdj ++
      catMaps (fun i => (List.range 1).map fun d => Ev.getAdjSens i d)
        (List.range instEval.input_.length) :=
  ((evaluate_adjoint_structure evalZero arEx instEval extEx 0 1).2 (by decide)).1

theorem c3_witness :
    evaluateChecked evalZero arEx instUninit extEx 0 0 = .error .notInitialized :=
  (evaluate_uninitialized_fatal evalZero arEx instUninit extEx 0 0 (by rfl)).1

theorem c4_witness :
    adFwdFull arEx instEval ruleZero [MXv.eye 1, MXv.zeros 3 1] = .error .inconsistent ↔
      ∃ s ∈ [MXv.eye 1, MXv.zeros 3 1], MXv.size2 s ≠ (MXv.eye 1).size2 :=
  (adFwd_consistency arEx instEval ruleZero [MXv.eye 1, MXv.zeros 3 1] (MXv.eye 1)
    [MXv.zeros 3 1] (by rfl) rfl (by decide)).1

/-- Claim C4 counterexample: on an initialized instance whose tape holds a
symbolic leaf that is not a declared input (function `x -> z`), `adFwd` with
agreeing seed column counts does not complete: it fails on the walk's
dependency assertion.  This refutes the claim's clause that agreement of all
column counts suffices for completion. -/
theorem c4_counterexample :
    (∀ s ∈ [MXv.eye 1], MXv.size2 s = (MXv.eye 1).size2) ∧
    adFwdFull arEx instStray ruleZero [MXv.eye 1] = .error .emptyDeps := by
  exact ⟨by decide, by rfl⟩

theorem c5_witness :
    jac arEx instEval ruleZero 0 = adFwd arEx instEval ruleZero (jacSeeds arEx instEval 0) :=
  (jac_seed_construction arEx instEval ruleZero 0 (by rfl) (by decide) (by decide)).1

/-- Claim C6 counterexample: for the function `x -> c` with `c` a 2-by-3
structural constant and one scalar seed column, the memoized derivative of
the constant slot is `zeros(6, 1)` — six rows, the constant's element
count — not a zero expression of the constant's shape (row count 2).  This
refutes the claim's parenthetical that the zero expression's shape matches
the constant node. -/
theorem c6_counterexample :
    adFwd arEx instConstOut ruleZero [MXv.eye 1] = .ok [MXv.zeros 6 1] ∧
    MXv.zeros 6 1 ≠ MXv.zeros ((arEx.node 2).nrow) ((MXv.eye 1).size2) := by
  exact ⟨by rfl, by decide⟩

theorem c6_witness :
    ([MXv.eye 1, MXv.zeros 6 1] : List MXv).getD 1 MXv.null =
      MXv.zeros ((arEx.node ((instConstOut.alg.getD 1 default).node)).numel) 1 :=
  adWalk_constant_zero_memo arEx instConstOut ruleZero 1 (List.range 2)
    [MXv.eye 1, MXv.null] [MXv.eye 1, MXv.zeros 6 1] 1
    (by decide) (by decide) (by decide) (by decide) (by decide) (by rfl)

theorem c7_witness :
    ∃ inst, mkMXFunction arEx [some 0] [some 3] 0 0 = .ok inst ∧
      inst.input_ = ([some 0] : List (Option Nat)).map (sparsityD arEx) ∧
      inst.output_ = ([some 3] : List (Option Nat)).map (sparsityD arEx) ∧
      inst.input_.length = ([some 0] : List (Option Nat)).length ∧
      inst.output_.length = ([some 3] : List (Option Nat)).length ∧
      inst.inputv = [some 0] ∧ inst.outputv = [some 3] ∧
      inst.initialized = false :=
  (ctor_validation arEx [some 0] [some 3] 0 0).2.2 (by decide)

theorem c8_witness :
    pick liftIdx (evaluate evalZero arEx instNoLift extEx 0 0).fwdTrace = [] :=
  (evaluate_lifting_hook evalZero arEx instNoLift extEx 0 0).2 (by rfl)

theorem c9_witness :
    adFwdFull arEx instEval ruleZero [] = .error .ubEmptyFront :=
  adFwd_empty_seeds_undefined arEx instEval ruleZero (by rfl)

theorem c10_witness :
    adFwdFull arEx instStray ruleZero [MXv.eye 1] = .error .emptyDeps :=
  adFwd_unseeded_sourceless_fails arEx instStray ruleZero [MXv.eye 1] (MXv.eye 1) [] 1
    (by rfl) rfl (by decide) (by decide) (by decide) (by decide) (by decide)
    (by decide) (by decide)

end CasadiMX
